import Mathlib

/-!
# Verification of the AI BOM generator core

Shallow embedding of the detection pipeline, finding reconciler and BOM
serializers of the `aibommaker` repository, together with proofs of the
behavioural claims about them.

Conventions used throughout:
* JavaScript strings are `String`; `jsToLower` models
  `String.prototype.toLowerCase` (all relevant data is ASCII),
  `jsIncludes` models `String.prototype.includes`, `jsStartsWith` and
  `jsEndsWith` model `startsWith` and `endsWith`.
* A JavaScript `Map` is an insertion-ordered association list; `jsMapSet`
  models `Map.set` (overwriting keeps the original position) and `jsMapGet`
  models `Map.get`.
* Randomly generated fresh identifiers (`generateShortId`, `generateUUID`)
  are modelled by deterministic injective supplies, which is the
  "modulo randomly generated identifiers" reading used by the spec.
-/

/-- Is `needle` a contiguous sublist of the second argument? -/
def charsInfix (needle : List Char) : List Char → Bool
  | [] => needle.isPrefixOf []
  | c :: rest => needle.isPrefixOf (c :: rest) || charsInfix needle rest

/-- `s.includes sub` of JavaScript: substring containment. -/
def jsIncludes (s sub : String) : Bool :=
  charsInfix sub.data s.data

/-- `s.toLowerCase()` of JavaScript (ASCII data). -/
def jsToLower (s : String) : String :=
  ⟨s.data.map Char.toLower⟩

/-- `s.startsWith p` of JavaScript. -/
def jsStartsWith (s p : String) : Bool :=
  p.data.isPrefixOf s.data

/-- `s.endsWith p` of JavaScript. -/
def jsEndsWith (s p : String) : Bool :=
  p.data.isSuffixOf s.data

/-- Split a list of characters at every occurrence of `sep`. -/
def splitCharsOn (sep : Char) : List Char → List (List Char)
  | [] => [[]]
  | c :: rest =>
    if c = sep then [] :: splitCharsOn sep rest
    else
      match splitCharsOn sep rest with
      | [] => [[c]]
      | h :: t => (c :: h) :: t

/-- `s.split(sep)` of JavaScript for a one-character separator. -/
def jsSplitOn (sep : Char) (s : String) : List String :=
  (splitCharsOn sep s.data).map List.asString

/-- `s.substring(0, n)` of JavaScript. -/
def jsTake (s : String) (n : Nat) : String :=
  ⟨s.data.take n⟩

/-! ## Model-name validation (`isValidModelName`, src/unnamed/part_003) -/

/-- MIME-type prefixes rejected by the validator. -/
def mimeTypePrefixes : List String :=
  ["application/", "image/", "text/", "font/", "audio/", "video/", "multipart/"]

/-- Framework/library import prefixes; each source regex anchors a literal
prefix (for instance `next` followed by a slash) on the lowercased
candidate. -/
def frameworkPrefixes : List String :=
  ["next/", "react/", "vue/", "angular/", "@angular/", "lodash/", "jquery/",
   "bootstrap/", "tailwind/"]

/-- The alternatives of the CSS-utility regex: a candidate is rejected when
its lowercase form starts with one of these words followed by a hyphen. -/
def cssPrefixes : List String :=
  ["text", "bg", "border", "shadow", "rounded", "flex", "grid", "gap",
   "p", "m", "w", "h"]

/-- Placeholder names rejected by the validator. -/
def invalidModelNames : List String :=
  ["n/a", "none", "null", "undefined", "todo", "fixme", "tbd"]

/-- The alternatives of the trailing file-extension regex: a candidate is
rejected when, case-insensitively, it ends in a dot followed by one of
these extensions. -/
def rejectedExtensions : List String :=
  ["js", "ts", "jsx", "tsx", "py", "java", "go", "css", "html", "json",
   "xml", "yml", "yaml"]

/-- `isValidModelName(name, provider)` from src/unnamed/part_003: the
validation filter applied to every captured model-name candidate. -/
def isValidModelName (name provider : String) : Bool :=
  if name = "" then false
  else if provider ≠ "HuggingFace" then true
  else
    let lowerName := jsToLower name
    if mimeTypePrefixes.any (fun p => jsStartsWith lowerName p) then false
    else if frameworkPrefixes.any (fun p => jsStartsWith lowerName p) then false
    else if cssPrefixes.any (fun p => jsStartsWith lowerName (p ++ "-")) then false
    else if invalidModelNames.contains lowerName then false
    else
      match jsSplitOn '/' name with
      | [org, model] =>
        if org.length < 2 || org.length > 50
            || !((org.data.head?.map Char.isAlphanum).getD false) then false
        else if model.length < 2 || model.length > 100 then false
        else if jsIncludes name "://" || jsIncludes name "www."
            || jsIncludes name ".com" || jsIncludes name ".org" then false
        else if rejectedExtensions.any
            (fun e => jsEndsWith (jsToLower name) ("." ++ e)) then false
        else true
      | _ => false

/-- C6: the model-name validation filter rejects `application/json`,
`next/head` and `text-white/80` as HuggingFace model-name candidates and
accepts `meta-llama/Llama-3-8B-Instruct`. -/
theorem C6_model_name_validation_filter :
    isValidModelName "application/json" "HuggingFace" = false ∧
    isValidModelName "next/head" "HuggingFace" = false ∧
    isValidModelName "text-white/80" "HuggingFace" = false ∧
    isValidModelName "meta-llama/Llama-3-8B-Instruct" "HuggingFace" = true := by
  refine ⟨by decide, by decide, by decide, by decide⟩

/-! ## Data model: findings (spec section 3, constructed throughout src) -/

/-- One evidence entry `{file, line?, snippet?, url?}`. -/
structure Evidence where
  file : String
  line : Option Nat := none
  snippet : Option String := none
  url : Option String := none
deriving DecidableEq

/-- The `dependencyInfo` payload of a dependency finding. -/
structure DependencyInfo where
  name : String
  version : Option String := none
  ecosystem : Option String := none
  source : Option String := none
deriving DecidableEq

/-- The `codeUsage` record attached by the reconciler to a merged finding. -/
structure CodeUsage where
  files : List String
  locations : List Evidence
deriving DecidableEq

/-- HuggingFace registry metadata attached to a model finding. -/
structure HFInfo where
  pipeline_tag : Option String := none
  library_name : Option String := none
  license : Option String := none
  author : Option String := none
  tags : List String := []
  downloads : Option Nat := none
  likes : Option Nat := none
  verified : Bool := false
deriving DecidableEq

/-- A cross-linked related model `(provider, modelName)`. -/
structure RelatedModel where
  provider : String
  modelName : String
deriving DecidableEq

/-- The `modelInfo` payload of a model finding. -/
structure ModelInfo where
  provider : String
  modelName : String
  modelType : Option String := none
  locations : List Evidence := []
  files : List String := []
  huggingface : Option HFInfo := none
  detectionSource : Option String := none
  relatedModels : List RelatedModel := []
deriving DecidableEq

/-- The `riskInfo` payload of a governance finding (`type` is `rtype` here,
`type` being reserved). -/
structure RiskInfo where
  rtype : String
  count : Nat
deriving DecidableEq

/-- A finding: the universal evidence unit produced by the detection units.
A JavaScript object with absent `title` is modelled by the empty string
(both are falsy exactly where the code tests `finding.title`). -/
structure Finding where
  id : String
  title : String := ""
  category : String
  severity : String
  weight : Nat
  description : String := ""
  evidence : List Evidence := []
  dependencyInfo : Option DependencyInfo := none
  modelInfo : Option ModelInfo := none
  riskInfo : Option RiskInfo := none
  codeUsage : Option CodeUsage := none
deriving DecidableEq

/-! ## JavaScript `Map` as an insertion-ordered association list -/

/-- `Map.set`: overwrite in place if the key exists (a JS map holds each key
once), otherwise append at the end. -/
def jsMapSet {β : Type} : List (String × β) → String → β → List (String × β)
  | [], k, v => [(k, v)]
  | p :: t, k, v => if p.1 = k then (k, v) :: t else p :: jsMapSet t k v

/-- `Map.get`: the value at the first (hence, by the `Map` invariant, only)
occurrence of the key. -/
def jsMapGet {β : Type} (m : List (String × β)) (k : String) : Option β :=
  (m.find? (fun p => p.1 == k)).map (·.2)

/-- `Map.has`. -/
def jsMapHas {β : Type} (m : List (String × β)) (k : String) : Bool :=
  m.any (fun p => p.1 == k)

/-- The `if (!m.has(k)) m.set(k, []); m.get(k).push(v)` pattern used for
multimaps throughout the source. -/
def jsMapPush {β : Type} (m : List (String × List β)) (k : String) (v : β) :
    List (String × List β) :=
  match jsMapGet m k with
  | some l => jsMapSet m k (l ++ [v])
  | none => jsMapSet m k [v]

/-! ## Finding reconciler (`mergeDependencyAndCodeFindings`, src/js/analyzer.js) -/

/-- One step of the first pass: a dependency finding with a payload is
entered into the map under its lowercased package name. -/
def depStep (m : List (String × Finding)) (f : Finding) :
    List (String × Finding) :=
  if f.category == "dependencies" then
    match f.dependencyInfo with
    | some di => jsMapSet m (jsToLower di.name) f
    | none => m
  else m

/-- First pass: collect dependency findings into `package name → finding`
(later findings with the same lowercased name overwrite earlier ones). -/
def buildDependencyMap (findings : List Finding) : List (String × Finding) :=
  findings.foldl depStep []

/-- The provider-keyword match between a lowercased code-finding title and a
lowercased dependency package name (the `matches` disjunction of the second
pass). -/
def titleMatchesDep (title depNameLower : String) : Bool :=
  (jsIncludes title "langchain" && jsIncludes depNameLower "langchain") ||
  (jsIncludes title "openai" && !jsIncludes title "compatible"
    && jsIncludes depNameLower "openai") ||
  (jsIncludes title "anthropic" && jsIncludes depNameLower "anthropic") ||
  (jsIncludes title "google" && jsIncludes depNameLower "google") ||
  (jsIncludes title "cohere" && jsIncludes depNameLower "cohere") ||
  (jsIncludes title "mistral" && jsIncludes depNameLower "mistral") ||
  (jsIncludes title "huggingface" && (jsIncludes depNameLower "transformers"
    || jsIncludes depNameLower "huggingface")) ||
  (jsIncludes title "litellm" && jsIncludes depNameLower "litellm")

/-- The "compatible API endpoint" skip of the second pass: such code
findings are never matched to SDK dependencies. -/
def isCompatTitle (f : Finding) : Bool :=
  let title := jsToLower f.title
  jsIncludes title "openai-compatible" || jsIncludes title "compatible"

/-- Inner loop of the second pass: try one dependency-map entry against one
code finding's lowercased title. -/
def codeInner (title : String) (f : Finding)
    (cm : List (String × List Finding)) (p : String × Finding) :
    List (String × List Finding) :=
  let depNameLower := jsToLower p.1
  if titleMatchesDep title depNameLower then jsMapPush cm p.1 f else cm

/-- One step of the second pass over the findings. -/
def codeStep (dependencyMap : List (String × Finding))
    (cm : List (String × List Finding)) (f : Finding) :
    List (String × List Finding) :=
  if f.category == "code" && f.title != "" then
    if isCompatTitle f then cm
    else dependencyMap.foldl (codeInner (jsToLower f.title) f) cm
  else cm

/-- Second pass: match each code finding against every dependency name,
skipping "compatible"-endpoint findings, and bucket the matches per package
name. -/
def buildCodeMap (findings : List Finding)
    (dependencyMap : List (String × Finding)) : List (String × List Finding) :=
  findings.foldl (codeStep dependencyMap) []

/-- Placeholder dependency payload; `buildDependencyMap` guarantees it is
never reached when reading a map entry's payload. -/
def defaultDepInfo : DependencyInfo := { name := "" }

/-- The unified finding created when a dependency finding has matching code
findings. -/
def mkMergedFinding (depF : Finding) (codeFindings : List Finding) : Finding :=
  let di := depF.dependencyInfo.getD defaultDepInfo
  { id := depF.id
    title := di.name ++ " - Usage Detected"
    category := "dependencies"
    severity := "high"
    weight := depF.weight
    description := di.name ++
      (match di.version with
       | some v => " (" ++ v ++ ")"
       | none => "") ++ " is installed and used in code"
    evidence := depF.evidence ++ (codeFindings.map Finding.evidence).flatten
    dependencyInfo := depF.dependencyInfo
    codeUsage := some
      { files := (codeFindings.map (fun cf => cf.evidence.map Evidence.file)).flatten
        locations := (codeFindings.map Finding.evidence).flatten } }

/-- Accumulator of the merge loop: the merged list and the ids of code
findings consumed by a merge. -/
structure MergeAcc where
  merged : List Finding
  processedCode : List String
deriving DecidableEq

/-- One step of the merge loop over the dependency map. -/
def mergeStep (codeMap : List (String × List Finding)) (acc : MergeAcc)
    (p : String × Finding) : MergeAcc :=
  let codeFindings := (jsMapGet codeMap p.1).getD []
  if codeFindings.isEmpty then
    { acc with merged := acc.merged ++ [p.2] }
  else
    { merged := acc.merged ++ [mkMergedFinding p.2 codeFindings]
      processedCode := acc.processedCode ++ codeFindings.map Finding.id }

/-- `mergeDependencyAndCodeFindings(findings)` from src/js/analyzer.js: the
finding reconciler. -/
def mergeDependencyAndCodeFindings (findings : List Finding) : List Finding :=
  let dependencyMap := buildDependencyMap findings
  let codeMap := buildCodeMap findings dependencyMap
  let acc := dependencyMap.foldl (mergeStep codeMap) ⟨[], []⟩
  acc.merged ++ findings.filter (fun f =>
    (f.category == "code" && !acc.processedCode.contains f.id) ||
    (f.category != "dependencies" && f.category != "code"))

/-! ## Association-list lemmas for the `Map` model -/

/-- The keys of a map, in insertion order. -/
def mapKeys {β : Type} (m : List (String × β)) : List String :=
  m.map Prod.fst

theorem jsMapGet_set_self {β : Type} (m : List (String × β)) (k : String)
    (v : β) : jsMapGet (jsMapSet m k v) k = some v := by
  induction m with
  | nil => simp [jsMapSet, jsMapGet]
  | cons p t ih =>
    by_cases h : p.1 = k
    · simp [jsMapSet, h, jsMapGet]
    · simp [jsMapSet, h, jsMapGet, List.find?] at ih ⊢
      simp [h, ih]

theorem jsMapGet_set_ne {β : Type} (m : List (String × β)) (k k' : String)
    (v : β) (h : k' ≠ k) : jsMapGet (jsMapSet m k v) k' = jsMapGet m k' := by
  have hkk : (k == k') = false := by simpa using Ne.symm h
  induction m with
  | nil => simp [jsMapSet, jsMapGet, List.find?_cons, hkk]
  | cons p t ih =>
    by_cases hp : p.1 = k
    · have hp' : (p.1 == k') = false := by simpa [hp] using Ne.symm h
      simp [jsMapSet, if_pos hp, jsMapGet, List.find?_cons, hkk, hp']
    · simp only [jsMapSet, if_neg hp, jsMapGet, List.find?_cons]
      cases hpk : (p.1 == k') with
      | true => simp
      | false => simpa [jsMapGet] using ih

theorem mapKeys_set {β : Type} (m : List (String × β)) (k : String) (v : β) :
    mapKeys (jsMapSet m k v)
      = if k ∈ mapKeys m then mapKeys m else mapKeys m ++ [k] := by
  induction m with
  | nil => simp [jsMapSet, mapKeys]
  | cons p t ih =>
    by_cases h : p.1 = k
    · subst h
      simp [jsMapSet, mapKeys]
    · simp only [jsMapSet, if_neg h, mapKeys, List.map_cons, List.mem_cons]
      simp only [mapKeys] at ih
      by_cases hk : k ∈ t.map Prod.fst
      · simp [ih, hk, Ne.symm h]
      · simp [ih, hk, Ne.symm h]

theorem nodup_mapKeys_set {β : Type} (m : List (String × β)) (k : String)
    (v : β) (h : (mapKeys m).Nodup) : (mapKeys (jsMapSet m k v)).Nodup := by
  rw [mapKeys_set]
  by_cases hk : k ∈ mapKeys m
  · simpa [hk]
  · simpa [hk] using List.Nodup.append h (by simp) (by simpa using hk)

theorem mem_jsMapSet {β : Type} (m : List (String × β)) (k : String) (v : β)
    (q : String × β) (h : q ∈ jsMapSet m k v) : q ∈ m ∨ q = (k, v) := by
  induction m with
  | nil => simp [jsMapSet] at h; simp [h]
  | cons p t ih =>
    by_cases hp : p.1 = k
    · simp [jsMapSet, hp] at h
      rcases h with h | h
      · right; simp [h]
      · left; simp [h]
    · simp [jsMapSet, hp] at h
      rcases h with h | h
      · left; simp [h]
      · rcases ih h with h' | h'
        · left; simp [h']
        · right; exact h'

theorem jsMapGet_eq_some_of_mem {β : Type} (m : List (String × β))
    (q : String × β) (hnd : (mapKeys m).Nodup) (h : q ∈ m) :
    jsMapGet m q.1 = some q.2 := by
  induction m with
  | nil => simp at h
  | cons p t ih =>
    rcases List.mem_cons.mp h with h' | h'
    · subst h'
      simp [jsMapGet, List.find?_cons]
    · have hk : q.1 ∈ mapKeys t := List.mem_map_of_mem Prod.fst h'
      have hne : (p.1 == q.1) = false := by
        simp only [beq_eq_false_iff_ne]
        intro he
        exact (List.nodup_cons.mp hnd).1 (he ▸ hk)
      simp only [jsMapGet, List.find?_cons, hne]
      simpa [jsMapGet] using ih (List.nodup_cons.mp hnd).2 h'

theorem mem_of_jsMapGet_eq_some {β : Type} (m : List (String × β))
    (k : String) (v : β) (h : jsMapGet m k = some v) : (k, v) ∈ m := by
  induction m with
  | nil => simp [jsMapGet] at h
  | cons p t ih =>
    cases p with
    | mk a b =>
      by_cases hp : a = k
      · subst hp
        simp only [jsMapGet, List.find?_cons] at h
        simp at h
        subst h
        exact List.mem_cons_self _ _
      · simp only [jsMapGet, List.find?_cons,
          show (((a, b) : String × β).1 == k) = false by simpa using hp] at h
        exact List.mem_cons_of_mem _ (ih h)

theorem jsMapPush_get_self {β : Type} (m : List (String × List β))
    (k : String) (v : β) :
    jsMapGet (jsMapPush m k v) k = some ((jsMapGet m k).getD [] ++ [v]) := by
  unfold jsMapPush
  cases h : jsMapGet m k with
  | some l => simp [jsMapGet_set_self, h]
  | none => simp [jsMapGet_set_self, h]

theorem jsMapPush_get_ne {β : Type} (m : List (String × List β))
    (k k' : String) (v : β) (h : k' ≠ k) :
    jsMapGet (jsMapPush m k v) k' = jsMapGet m k' := by
  unfold jsMapPush
  cases jsMapGet m k with
  | some l => simp [jsMapGet_set_ne _ _ _ _ h]
  | none => simp [jsMapGet_set_ne _ _ _ _ h]

/-! ## Characterization of the reconciler -/

/-- A finding that enters the dependency map: dependency category with a
payload. -/
def isDepWithInfo (f : Finding) : Bool :=
  f.category == "dependencies" && f.dependencyInfo.isSome

/-- The dependency-map key of a finding: its lowercased package name. -/
def findingDepKey (f : Finding) : String :=
  jsToLower ((f.dependencyInfo.getD defaultDepInfo).name)

theorem depStep_eq (m : List (String × Finding)) (f : Finding) :
    depStep m f
      = if isDepWithInfo f then jsMapSet m (findingDepKey f) f else m := by
  unfold depStep isDepWithInfo findingDepKey
  cases hdi : f.dependencyInfo with
  | some di => by_cases hc : f.category == "dependencies" <;> simp [hdi, hc]
  | none => by_cases hc : f.category == "dependencies" <;> simp [hdi, hc]

/-- One step of the last-matching-dependency scan. -/
def lastDepStep (k : String) (acc : Option Finding) (f : Finding) :
    Option Finding :=
  if isDepWithInfo f && findingDepKey f == k then some f else acc

/-- The last dependency finding of the list whose lowercased package name is
`k`, if any. -/
def lastDepFor (findings : List Finding) (k : String) : Option Finding :=
  findings.foldl (lastDepStep k) none

theorem foldl_lastDepStep (k : String) (l : List Finding) (acc : Option Finding) :
    l.foldl (lastDepStep k) acc
      = match l.foldl (lastDepStep k) none with
        | some x => some x
        | none => acc := by
  induction l generalizing acc with
  | nil => simp
  | cons f t ih =>
    simp only [List.foldl_cons, lastDepStep]
    by_cases h : isDepWithInfo f && findingDepKey f == k
    · rw [if_pos h, if_pos h, ih (some f)]
      cases t.foldl (lastDepStep k) none <;> simp
    · rw [if_neg h, if_neg h]
      exact ih acc

theorem lastDepFor_cons (f : Finding) (t : List Finding) (k : String) :
    lastDepFor (f :: t) k
      = match lastDepFor t k with
        | some g => some g
        | none =>
          if isDepWithInfo f && findingDepKey f == k then some f else none := by
  unfold lastDepFor
  simp only [List.foldl_cons]
  rw [foldl_lastDepStep]
  simp only [lastDepStep]

theorem jsMapGet_foldl_depStep (fs : List Finding)
    (m : List (String × Finding)) (k : String) :
    jsMapGet (fs.foldl depStep m) k
      = match lastDepFor fs k with
        | some f => some f
        | none => jsMapGet m k := by
  induction fs generalizing m with
  | nil => simp [lastDepFor]
  | cons f t ih =>
    simp only [List.foldl_cons, depStep_eq, lastDepFor_cons]
    by_cases hd : isDepWithInfo f
    · by_cases hk : findingDepKey f = k
      · subst hk
        rw [if_pos hd, ih]
        cases h' : lastDepFor t (findingDepKey f) <;>
          simp [h', hd, jsMapGet_set_self]
      · rw [if_pos hd, ih]
        cases h' : lastDepFor t k <;>
          simp [h', hd, hk, jsMapGet_set_ne _ _ _ _ (Ne.symm hk)]
    · rw [if_neg hd, ih]
      cases h' : lastDepFor t k <;> simp [h', hd]

/-- The dependency map holds, under each key, the **last** dependency
finding of the input whose lowercased name is that key. -/
theorem buildDependencyMap_get (fs : List Finding) (k : String) :
    jsMapGet (buildDependencyMap fs) k = lastDepFor fs k := by
  unfold buildDependencyMap
  rw [jsMapGet_foldl_depStep]
  cases lastDepFor fs k <;> simp [jsMapGet]

theorem nodup_keys_buildDependencyMap (fs : List Finding) :
    (mapKeys (buildDependencyMap fs)).Nodup := by
  suffices h : ∀ m : List (String × Finding), (mapKeys m).Nodup →
      (mapKeys (fs.foldl depStep m)).Nodup by
    exact h [] (by simp [mapKeys])
  induction fs with
  | nil => intro m hm; simpa
  | cons f t ih =>
    intro m hm
    simp only [List.foldl_cons, depStep_eq]
    by_cases hd : isDepWithInfo f
    · rw [if_pos hd]
      exact ih _ (nodup_mapKeys_set _ _ _ hm)
    · rw [if_neg hd]
      exact ih m hm

theorem mem_foldl_depStep (l : List Finding) (m : List (String × Finding))
    (q : String × Finding) (h : q ∈ l.foldl depStep m) :
    q ∈ m ∨ (isDepWithInfo q.2 ∧ findingDepKey q.2 = q.1 ∧ q.2 ∈ l) := by
  induction l generalizing m with
  | nil => exact Or.inl (by simpa using h)
  | cons f t ih =>
    simp only [List.foldl_cons, depStep_eq] at h
    by_cases hd : isDepWithInfo f
    · rw [if_pos hd] at h
      rcases ih _ h with h' | h'
      · rcases mem_jsMapSet _ _ _ _ h' with h'' | h''
        · exact Or.inl h''
        · right
          subst h''
          exact ⟨hd, rfl, List.mem_cons_self _ _⟩
      · right
        exact ⟨h'.1, h'.2.1, List.mem_cons_of_mem _ h'.2.2⟩
    · rw [if_neg hd] at h
      rcases ih _ h with h' | h'
      · exact Or.inl h'
      · right
        exact ⟨h'.1, h'.2.1, List.mem_cons_of_mem _ h'.2.2⟩

theorem mem_buildDependencyMap (fs : List Finding) (q : String × Finding)
    (h : q ∈ buildDependencyMap fs) :
    isDepWithInfo q.2 ∧ findingDepKey q.2 = q.1 ∧ q.2 ∈ fs := by
  rcases mem_foldl_depStep fs [] q h with h' | h'
  · simp at h'
  · exact h'

theorem jsMapHas_iff {β : Type} (m : List (String × β)) (k : String) :
    jsMapHas m k = true ↔ k ∈ mapKeys m := by
  unfold jsMapHas mapKeys
  simp [List.any_eq_true, beq_iff_eq, List.mem_map]

theorem innerFold_get (dm : List (String × Finding))
    (hnd : (mapKeys dm).Nodup) (title : String) (f : Finding)
    (cm : List (String × List Finding)) (k : String) :
    (jsMapGet (dm.foldl (codeInner title f) cm) k).getD []
      = (jsMapGet cm k).getD []
        ++ (if jsMapHas dm k && titleMatchesDep title (jsToLower k)
            then [f] else []) := by
  induction dm generalizing cm with
  | nil => simp [jsMapHas]
  | cons p t ih =>
    have hnd' : (mapKeys t).Nodup := (List.nodup_cons.mp hnd).2
    have hnotin : p.1 ∉ mapKeys t := (List.nodup_cons.mp hnd).1
    simp only [List.foldl_cons]
    by_cases hp : p.1 = k
    · subst hp
      have hhast : jsMapHas t p.1 = false := by
        cases h' : jsMapHas t p.1
        · rfl
        · exact absurd ((jsMapHas_iff t p.1).mp h') hnotin
      rw [ih hnd']
      have hhas : jsMapHas (p :: t) p.1 = true := by
        rw [jsMapHas_iff]
        exact List.mem_map_of_mem Prod.fst (List.mem_cons_self _ _)
      rw [hhas, hhast]
      unfold codeInner
      by_cases hm : titleMatchesDep title (jsToLower p.1)
      · simp only [hm, if_pos, Bool.true_and, Bool.and_true, if_true]
        simp [jsMapPush_get_self]
      · simp [hm]
    · have hcm : jsMapGet (codeInner title f cm p) k = jsMapGet cm k := by
        unfold codeInner
        by_cases hm : titleMatchesDep title (jsToLower p.1)
        · simp only [hm, if_true]
          exact jsMapPush_get_ne _ _ _ _ (fun he => hp he.symm)
        · simp [hm]
      have hhas : jsMapHas (p :: t) k = jsMapHas t k := by
        unfold jsMapHas
        simp [List.any_cons, hp]
      rw [ih hnd', hcm, hhas]

/-- The condition under which a finding is bucketed (by the second pass)
under dependency-map key `k`. -/
def codeMatchB (dm : List (String × Finding)) (k : String) (f : Finding) :
    Bool :=
  f.category == "code" && f.title != "" && !isCompatTitle f
    && jsMapHas dm k && titleMatchesDep (jsToLower f.title) (jsToLower k)

theorem foldl_codeStep_get (dm : List (String × Finding))
    (hnd : (mapKeys dm).Nodup) (fs : List Finding)
    (cm : List (String × List Finding)) (k : String) :
    (jsMapGet (fs.foldl (codeStep dm) cm) k).getD []
      = (jsMapGet cm k).getD [] ++ fs.filter (codeMatchB dm k) := by
  induction fs generalizing cm with
  | nil => simp
  | cons f t ih =>
    simp only [List.foldl_cons, codeStep]
    by_cases h1 : f.category == "code" && f.title != ""
    · rw [if_pos h1]
      by_cases h2 : isCompatTitle f
      · rw [if_pos h2, ih]
        have hm : codeMatchB dm k f = false := by
          simp [codeMatchB, h2]
        simp [List.filter_cons, hm]
      · rw [if_neg h2, ih]
        rw [innerFold_get dm hnd (jsToLower f.title) f cm k]
        have hm : codeMatchB dm k f
            = (jsMapHas dm k && titleMatchesDep (jsToLower f.title) (jsToLower k)) := by
          have h1' := h1
          simp only [Bool.and_eq_true] at h1'
          obtain ⟨ha, hb⟩ := h1'
          have h2' : isCompatTitle f = false := Bool.eq_false_iff.mpr h2
          simp [codeMatchB, ha, hb, h2']
        rw [List.filter_cons, hm]
        by_cases h3 : (jsMapHas dm k && titleMatchesDep (jsToLower f.title) (jsToLower k))
        · simp [h3, List.append_assoc]
        · simp [h3]
    · rw [if_neg h1, ih]
      have hm : codeMatchB dm k f = false := by
        simp only [codeMatchB]
        rcases Bool.and_eq_false_iff.mp (Bool.eq_false_iff.mpr h1) with h | h <;>
          simp [h]
      simp [List.filter_cons, hm]

/-- The code map holds, under each dependency key, exactly the code findings
whose titles match that key (in input order). -/
theorem buildCodeMap_get (fs : List Finding) (dm : List (String × Finding))
    (hnd : (mapKeys dm).Nodup) (k : String) :
    (jsMapGet (buildCodeMap fs dm) k).getD [] = fs.filter (codeMatchB dm k) := by
  unfold buildCodeMap
  rw [foldl_codeStep_get dm hnd fs [] k]
  simp [jsMapGet]

/-- The element the merge loop appends for one dependency-map entry. -/
def mergeChoice (cm : List (String × List Finding)) (p : String × Finding) :
    Finding :=
  let codeFindings := (jsMapGet cm p.1).getD []
  if codeFindings.isEmpty then p.2 else mkMergedFinding p.2 codeFindings

theorem mergeFold_spec (cm : List (String × List Finding))
    (l : List (String × Finding)) (acc : MergeAcc) :
    (l.foldl (mergeStep cm) acc).merged = acc.merged ++ l.map (mergeChoice cm) ∧
    (l.foldl (mergeStep cm) acc).processedCode
      = acc.processedCode
        ++ (l.map (fun p => ((jsMapGet cm p.1).getD []).map Finding.id)).flatten := by
  induction l generalizing acc with
  | nil => simp
  | cons p t ih =>
    simp only [List.foldl_cons, mergeStep, mergeChoice, List.map_cons,
      List.flatten_cons]
    by_cases h : ((jsMapGet cm p.1).getD []).isEmpty
    · rw [if_pos h, if_pos h]
      have hnil : ((jsMapGet cm p.1).getD []).map Finding.id = [] := by
        rw [List.isEmpty_iff.mp h]
        rfl
      constructor
      · rw [(ih _).1]
        simp
      · rw [(ih _).2]
        simp [hnil]
    · rw [if_neg h, if_neg h]
      constructor
      · rw [(ih _).1]
        simp
      · rw [(ih _).2]
        simp

/-- The ids of the code findings consumed by some merge. -/
def matchedCodeIds (fs : List Finding) : List String :=
  ((buildDependencyMap fs).map
    (fun p =>
      ((jsMapGet (buildCodeMap fs (buildDependencyMap fs)) p.1).getD []).map
        Finding.id)).flatten

/-- The final-pass filter: unconsumed code findings and all findings of
other non-dependency categories pass through. -/
def passesThrough (fs : List Finding) (f : Finding) : Bool :=
  (f.category == "code" && !(matchedCodeIds fs).contains f.id) ||
  (f.category != "dependencies" && f.category != "code")

/-- Closed form of the reconciler: one output finding per dependency-map
entry (merged when code findings matched), followed by the pass-through
findings in input order. -/
theorem mergeDependencyAndCodeFindings_eq (fs : List Finding) :
    mergeDependencyAndCodeFindings fs
      = (buildDependencyMap fs).map
          (mergeChoice (buildCodeMap fs (buildDependencyMap fs)))
        ++ fs.filter (passesThrough fs) := by
  simp only [mergeDependencyAndCodeFindings]
  have h := mergeFold_spec (buildCodeMap fs (buildDependencyMap fs))
    (buildDependencyMap fs) ⟨[], []⟩
  rw [h.1, h.2]
  simp only [List.nil_append]
  rfl

theorem passes_not_dep (fs : List Finding) (f : Finding)
    (h : passesThrough fs f = true) : (f.category == "dependencies") = false := by
  unfold passesThrough at h
  rw [Bool.or_eq_true] at h
  rcases h with h' | h'
  · rw [Bool.and_eq_true] at h'
    have hc : f.category = "code" := by simpa using h'.1
    simp [hc]
  · rw [Bool.and_eq_true] at h'
    simpa using h'.1

theorem mergeChoice_fields (cm : List (String × List Finding))
    (p : String × Finding) (hdep : isDepWithInfo p.2)
    (hkey : findingDepKey p.2 = p.1) :
    (mergeChoice cm p).category = "dependencies" ∧
    (mergeChoice cm p).id = p.2.id ∧
    (mergeChoice cm p).dependencyInfo = p.2.dependencyInfo ∧
    (mergeChoice cm p).weight = p.2.weight ∧
    findingDepKey (mergeChoice cm p) = p.1 := by
  have hdep' := hdep
  unfold isDepWithInfo at hdep'
  rw [Bool.and_eq_true] at hdep'
  have hcat : p.2.category = "dependencies" := by simpa using hdep'.1
  simp only [mergeChoice]
  by_cases h : ((jsMapGet cm p.1).getD []).isEmpty = true
  · rw [if_pos h]
    exact ⟨hcat, rfl, rfl, rfl, hkey⟩
  · rw [if_neg h]
    refine ⟨rfl, rfl, rfl, rfl, ?_⟩
    rw [← hkey]
    rfl

theorem output_filter_dep (fs : List Finding) :
    (mergeDependencyAndCodeFindings fs).filter
        (fun f => f.category == "dependencies")
      = (buildDependencyMap fs).map
          (mergeChoice (buildCodeMap fs (buildDependencyMap fs))) := by
  rw [mergeDependencyAndCodeFindings_eq, List.filter_append]
  have h1 : (List.filter (fun f => f.category == "dependencies")
      ((buildDependencyMap fs).map
        (mergeChoice (buildCodeMap fs (buildDependencyMap fs)))))
      = (buildDependencyMap fs).map
          (mergeChoice (buildCodeMap fs (buildDependencyMap fs))) := by
    apply List.filter_eq_self.mpr
    intro f hf
    rcases List.mem_map.mp hf with ⟨p, hp, rfl⟩
    rcases mem_buildDependencyMap fs p hp with ⟨hdep, hkey, _⟩
    have h := (mergeChoice_fields (buildCodeMap fs (buildDependencyMap fs))
      p hdep hkey).1
    simp [h]
  have h2 : (List.filter (fun f => f.category == "dependencies")
      (fs.filter (passesThrough fs))) = [] := by
    apply List.filter_eq_nil_iff.mpr
    intro f hf
    have hp := List.of_mem_filter hf
    simp [passes_not_dep fs f hp]
  rw [h1, h2, List.append_nil]

theorem outputDeps_keys (fs : List Finding) :
    (((mergeDependencyAndCodeFindings fs).filter
        (fun f => f.category == "dependencies")).map findingDepKey)
      = mapKeys (buildDependencyMap fs) := by
  rw [output_filter_dep, List.map_map]
  apply List.map_congr_left
  intro p hp
  rcases mem_buildDependencyMap fs p hp with ⟨hdep, hkey, _⟩
  exact (mergeChoice_fields (buildCodeMap fs (buildDependencyMap fs))
    p hdep hkey).2.2.2.2

/-! ## Concrete findings used by counterexamples and witnesses -/

/-- A requirements-file evidence entry. -/
def evReq : Evidence := { file := "requirements.txt", line := some 1 }

/-- A package-manifest evidence entry. -/
def evPkg : Evidence := { file := "package.json", line := some 3 }

/-- The `app.py:10` evidence entry of the spec's merge test. -/
def evApp : Evidence := { file := "app.py", line := some 10 }

/-- A dependency finding for package `openai` (shape produced by the
dependencies detector). -/
def depOpenaiLower : Finding :=
  { id := "dep-pypi-openai", title := "Dependency: openai",
    category := "dependencies", severity := "high", weight := 5,
    description := "LLM-related dependency: openai", evidence := [evReq],
    dependencyInfo := some { name := "openai" } }

/-- A second dependency finding whose name lowercases to the same key. -/
def depOpenaiCased : Finding :=
  { depOpenaiLower with
    id := "dep-npm-OpenAI"
    evidence := [evPkg]
    dependencyInfo := some { name := "OpenAI" } }

/-- A dependency finding for `openai` carrying a non-high severity. -/
def depOpenaiMedium : Finding :=
  { depOpenaiLower with
    id := "dep-pypi-openai-med"
    severity := "medium" }

/-- The code finding of the spec's merge test. -/
def codeSdkOpenai : Finding :=
  { id := "code-sdk-search-OpenAI-search", title := "OpenAI SDK Usage Detected",
    category := "code", severity := "high", weight := 5,
    description := "Found OpenAI SDK usage in 1 file(s)", evidence := [evApp] }

/-- The compatible-endpoint code finding that must never merge into the
`openai` dependency. -/
def codeCompatEndpoint : Finding :=
  { id := "code-api-OpenAI-compatible",
    title := "OpenAI-compatible API Endpoint Detected", category := "code",
    severity := "medium", weight := 3,
    description := "Found API calls to OpenAI-compatible in 1 file(s)",
    evidence := [{ file := "client.py", line := some 7 }] }

/-- A metadata finding (passes through the reconciler untouched). -/
def metaKeywords : Finding :=
  { id := "metadata-keywords", title := "AI Keywords in Repository Metadata",
    category := "metadata", severity := "low", weight := 2,
    description := "Found AI keywords",
    evidence := [{ file := "Repository Description" }] }

/-! ## C10: at most one dependency finding per case-insensitive name -/

/-- C10: the reconciler output has at most one dependency-category finding
per case-insensitive package name; the dependency map keeps exactly the last
dependency finding per key; every dependency-category output finding stems
from that last finding; earlier duplicates are dropped. -/
theorem C10_only_last_dependency_per_name (fs : List Finding) :
    (((mergeDependencyAndCodeFindings fs).filter
        (fun f => f.category == "dependencies")).map findingDepKey).Nodup
    ∧ (∀ k, jsMapGet (buildDependencyMap fs) k = lastDepFor fs k)
    ∧ (∀ f, f ∈ mergeDependencyAndCodeFindings fs →
        f.category = "dependencies" →
        ∃ d, lastDepFor fs (findingDepKey f) = some d ∧ f.id = d.id
          ∧ f.dependencyInfo = d.dependencyInfo ∧ f.weight = d.weight)
    ∧ (∀ d, d ∈ fs → isDepWithInfo d → d.codeUsage = none →
        lastDepFor fs (findingDepKey d) ≠ some d →
        d ∉ mergeDependencyAndCodeFindings fs) := by
  refine ⟨?_, buildDependencyMap_get fs, ?_, ?_⟩
  · rw [outputDeps_keys]
    exact nodup_keys_buildDependencyMap fs
  · intro f hf hcat
    rw [mergeDependencyAndCodeFindings_eq] at hf
    rcases List.mem_append.mp hf with hf | hf
    · rcases List.mem_map.mp hf with ⟨p, hp, rfl⟩
      rcases mem_buildDependencyMap fs p hp with ⟨hdep, hkey, _⟩
      have hfields := mergeChoice_fields
        (buildCodeMap fs (buildDependencyMap fs)) p hdep hkey
      refine ⟨p.2, ?_, hfields.2.1, hfields.2.2.1, hfields.2.2.2.1⟩
      rw [hfields.2.2.2.2, ← buildDependencyMap_get]
      exact jsMapGet_eq_some_of_mem _ p (nodup_keys_buildDependencyMap fs) hp
    · exfalso
      have hpass := List.of_mem_filter hf
      have hnd := passes_not_dep fs f hpass
      rw [hcat] at hnd
      simp at hnd
  · intro d hdfs hdep hcu hlast hmem
    rw [mergeDependencyAndCodeFindings_eq] at hmem
    rcases List.mem_append.mp hmem with hm | hm
    · rcases List.mem_map.mp hm with ⟨p, hp, heq⟩
      rcases mem_buildDependencyMap fs p hp with ⟨hdep2, hkey2, _⟩
      by_cases hemp :
          ((jsMapGet (buildCodeMap fs (buildDependencyMap fs)) p.1).getD
            []).isEmpty = true
      · have hd2 : d = p.2 := by
          rw [← heq]
          simp only [mergeChoice]
          rw [if_pos hemp]
        apply hlast
        have hkd : findingDepKey d = p.1 := by rw [hd2]; exact hkey2
        rw [hkd, ← buildDependencyMap_get, hd2]
        exact jsMapGet_eq_some_of_mem _ p (nodup_keys_buildDependencyMap fs) hp
      · have hne : d.codeUsage ≠ none := by
          rw [← heq]
          simp only [mergeChoice]
          rw [if_neg hemp]
          simp [mkMergedFinding]
        exact hne hcu
    · have hpass := List.of_mem_filter hm
      have hnd := passes_not_dep fs d hpass
      unfold isDepWithInfo at hdep
      rw [Bool.and_eq_true] at hdep
      rw [hdep.1] at hnd
      simp at hnd

/-- Witness for C10: with two dependency findings whose names lowercase to
`openai`, the earlier one is dropped from the output. -/
theorem C10_only_last_dependency_per_name_witness :
    depOpenaiLower ∉
      mergeDependencyAndCodeFindings [depOpenaiLower, depOpenaiCased] :=
  (C10_only_last_dependency_per_name [depOpenaiLower, depOpenaiCased]).2.2.2
    depOpenaiLower (by decide) (by decide) (by decide) (by decide)

/-! ## C9: cardinality and pass-through behaviour of the reconciler -/

/-- Counterexample for C9: with two dependency findings whose names
lowercase to the same key (and no code findings, so both are unmatched), the
earlier one does not appear in the output, contradicting "every unmatched
dependency Finding appears in the output unchanged". -/
theorem C9_counterexample :
    mergeDependencyAndCodeFindings [depOpenaiLower, depOpenaiCased]
      = [depOpenaiCased]
    ∧ depOpenaiLower ≠ depOpenaiCased
    ∧ depOpenaiLower.category = "dependencies" := by
  refine ⟨by decide, by decide, by decide⟩

theorem length_filter_le_of_imp {α : Type} (p q : α → Bool) (l : List α)
    (h : ∀ a, p a = true → q a = true) :
    (l.filter p).length ≤ (l.filter q).length := by
  induction l with
  | nil => simp
  | cons a t ih =>
    by_cases hp : p a = true
    · have hq := h a hp
      simp only [List.filter_cons, hp, hq, if_true, List.length_cons]
      exact Nat.succ_le_succ ih
    · have hp' : p a = false := Bool.eq_false_iff.mpr hp
      by_cases hq : q a = true
      · simp only [List.filter_cons, hp', hq, Bool.false_eq_true, if_false,
          if_true, List.length_cons]
        exact Nat.le_succ_of_le ih
      · have hq' : q a = false := Bool.eq_false_iff.mpr hq
        simp only [List.filter_cons, hp', hq', Bool.false_eq_true, if_false]
        exact ih

theorem length_filter_add_filter_not {α : Type} (p : α → Bool) (l : List α) :
    (l.filter p).length + (l.filter (fun a => !p a)).length = l.length := by
  induction l with
  | nil => rfl
  | cons a t ih =>
    by_cases hp : p a = true
    · simp only [List.filter_cons, hp, Bool.not_true, Bool.false_eq_true,
        if_false, if_true, List.length_cons]
      omega
    · have hp' : p a = false := Bool.eq_false_iff.mpr hp
      simp only [List.filter_cons, hp', Bool.not_false, Bool.false_eq_true,
        if_false, if_true, List.length_cons]
      omega

theorem jsMapSet_length_le {β : Type} (m : List (String × β)) (k : String)
    (v : β) : (jsMapSet m k v).length ≤ m.length + 1 := by
  induction m with
  | nil => simp [jsMapSet]
  | cons p t ih =>
    by_cases h : p.1 = k
    · simp [jsMapSet, h]
    · simp only [jsMapSet, if_neg h, List.length_cons]
      omega

theorem buildDependencyMap_length_le (fs : List Finding) :
    (buildDependencyMap fs).length ≤ (fs.filter isDepWithInfo).length := by
  suffices h : ∀ m : List (String × Finding),
      (fs.foldl depStep m).length ≤ m.length + (fs.filter isDepWithInfo).length by
    simpa using h []
  induction fs with
  | nil => intro m; simp
  | cons f t ih =>
    intro m
    simp only [List.foldl_cons, depStep_eq, List.filter_cons]
    by_cases hd : isDepWithInfo f = true
    · rw [if_pos hd, hd]
      have h1 := ih (jsMapSet m (findingDepKey f) f)
      have h2 := jsMapSet_length_le m (findingDepKey f) f
      simp only [if_true, List.length_cons]
      omega
    · have hd' : isDepWithInfo f = false := Bool.eq_false_iff.mpr hd
      rw [if_neg hd, hd']
      simp only [Bool.false_eq_true, if_false]
      exact ih m

/-- Amended C9: the output never exceeds the input in cardinality; every
non-dependency/non-code finding passes through; every code finding whose id
was not consumed by a merge passes through; and a dependency finding passes
through unchanged when it is the last one for its case-insensitive name and
no code finding matched that name. (Earlier dependency findings sharing a
lowercased name with a later one are dropped, per the counterexample.) -/
theorem C9_cardinality_and_passthrough (fs : List Finding) :
    (mergeDependencyAndCodeFindings fs).length ≤ fs.length
    ∧ (∀ f, f ∈ fs → f.category ≠ "dependencies" → f.category ≠ "code" →
        f ∈ mergeDependencyAndCodeFindings fs)
    ∧ (∀ f, f ∈ fs → f.category = "code" → f.id ∉ matchedCodeIds fs →
        f ∈ mergeDependencyAndCodeFindings fs)
    ∧ (∀ d, d ∈ fs → isDepWithInfo d →
        lastDepFor fs (findingDepKey d) = some d →
        (jsMapGet (buildCodeMap fs (buildDependencyMap fs))
          (findingDepKey d)).getD [] = [] →
        d ∈ mergeDependencyAndCodeFindings fs) := by
  refine ⟨?_, ?_, ?_, ?_⟩
  · rw [mergeDependencyAndCodeFindings_eq, List.length_append, List.length_map]
    have h1 := buildDependencyMap_length_le fs
    have h2 : (fs.filter isDepWithInfo).length
        ≤ (fs.filter (fun f => f.category == "dependencies")).length := by
      apply length_filter_le_of_imp
      intro f hf
      unfold isDepWithInfo at hf
      rw [Bool.and_eq_true] at hf
      exact hf.1
    have h3 : (fs.filter (passesThrough fs)).length
        ≤ (fs.filter (fun f => !(f.category == "dependencies"))).length := by
      apply length_filter_le_of_imp
      intro f hf
      rw [passes_not_dep fs f hf]
      rfl
    have h4 := length_filter_add_filter_not
      (fun f : Finding => f.category == "dependencies") fs
    omega
  · intro f hf h1 h2
    rw [mergeDependencyAndCodeFindings_eq]
    apply List.mem_append_right
    apply List.mem_filter.mpr
    refine ⟨hf, ?_⟩
    unfold passesThrough
    simp only [Bool.or_eq_true, Bool.and_eq_true, bne_iff_ne, beq_iff_eq,
      Bool.not_eq_true']
    exact Or.inr ⟨h1, h2⟩
  · intro f hf h1 h2
    rw [mergeDependencyAndCodeFindings_eq]
    apply List.mem_append_right
    apply List.mem_filter.mpr
    refine ⟨hf, ?_⟩
    unfold passesThrough
    simp only [Bool.or_eq_true, Bool.and_eq_true, bne_iff_ne, beq_iff_eq,
      Bool.not_eq_true', Bool.not_eq_true]
    left
    refine ⟨h1, ?_⟩
    rw [Bool.eq_false_iff]
    intro hc
    exact h2 (by simpa using hc)
  · intro d hdfs hdep hlast hempty
    rw [mergeDependencyAndCodeFindings_eq]
    apply List.mem_append_left
    have hget : jsMapGet (buildDependencyMap fs) (findingDepKey d) = some d := by
      rw [buildDependencyMap_get]
      exact hlast
    have hmem := mem_of_jsMapGet_eq_some _ _ _ hget
    have hchoice : mergeChoice (buildCodeMap fs (buildDependencyMap fs))
        (findingDepKey d, d) = d := by
      simp only [mergeChoice]
      rw [if_pos (by simp [hempty])]
    rw [← hchoice]
    exact List.mem_map_of_mem _ hmem

/-- Witness for C9: a metadata finding passes through the reconciler. -/
theorem C9_cardinality_and_passthrough_witness :
    metaKeywords ∈ mergeDependencyAndCodeFindings [metaKeywords] :=
  (C9_cardinality_and_passthrough [metaKeywords]).2.1 metaKeywords
    (by decide) (by decide) (by decide)

/-! ## C4: shape of a merged finding -/

/-- Counterexample for C4: the merged finding does **not** keep the
dependency finding's severity; `mergeDependencyAndCodeFindings` sets
severity `high` unconditionally. -/
theorem C4_counterexample :
    mergeDependencyAndCodeFindings [depOpenaiMedium, codeSdkOpenai]
      = [mkMergedFinding depOpenaiMedium [codeSdkOpenai]]
    ∧ depOpenaiMedium.severity = "medium"
    ∧ (mkMergedFinding depOpenaiMedium [codeSdkOpenai]).severity = "high" := by
  refine ⟨by decide, by decide, by decide⟩

/-- Amended C4: for every dependency-map entry with a nonempty matched
code-finding bucket, the output contains the unified finding, which keeps
the dependency finding's weight, combines both evidence lists, takes the
title `<package> - Usage Detected`, records the code evidence under
`codeUsage` — and carries severity `high` (not the dependency finding's
severity). -/
theorem C4_merged_finding_shape (fs : List Finding) (p : String × Finding)
    (cfs : List Finding) (hp : p ∈ buildDependencyMap fs)
    (hcfs : (jsMapGet (buildCodeMap fs (buildDependencyMap fs)) p.1).getD []
      = cfs)
    (hne : cfs ≠ []) :
    mkMergedFinding p.2 cfs ∈ mergeDependencyAndCodeFindings fs
    ∧ (mkMergedFinding p.2 cfs).weight = p.2.weight
    ∧ (mkMergedFinding p.2 cfs).title
        = (p.2.dependencyInfo.getD defaultDepInfo).name ++ " - Usage Detected"
    ∧ (mkMergedFinding p.2 cfs).evidence
        = p.2.evidence ++ (cfs.map Finding.evidence).flatten
    ∧ (mkMergedFinding p.2 cfs).codeUsage
        = some { files := (cfs.map (fun cf => cf.evidence.map Evidence.file)).flatten
                 locations := (cfs.map Finding.evidence).flatten }
    ∧ (mkMergedFinding p.2 cfs).severity = "high" := by
  refine ⟨?_, rfl, rfl, rfl, rfl, rfl⟩
  rw [mergeDependencyAndCodeFindings_eq]
  apply List.mem_append_left
  have hchoice : mergeChoice (buildCodeMap fs (buildDependencyMap fs)) p
      = mkMergedFinding p.2 cfs := by
    simp only [mergeChoice, hcfs]
    rw [if_neg]
    simp [List.isEmpty_iff, hne]
  rw [← hchoice]
  exact List.mem_map_of_mem _ hp

/-- Witness for C4: the amended statement at the concrete medium-severity
example. -/
theorem C4_merged_finding_shape_witness :
    mkMergedFinding depOpenaiMedium [codeSdkOpenai]
      ∈ mergeDependencyAndCodeFindings [depOpenaiMedium, codeSdkOpenai]
    ∧ (mkMergedFinding depOpenaiMedium [codeSdkOpenai]).weight
        = depOpenaiMedium.weight :=
  ⟨(C4_merged_finding_shape [depOpenaiMedium, codeSdkOpenai]
      ("openai", depOpenaiMedium) [codeSdkOpenai] (by decide) (by decide)
      (by decide)).1,
   (C4_merged_finding_shape [depOpenaiMedium, codeSdkOpenai]
      ("openai", depOpenaiMedium) [codeSdkOpenai] (by decide) (by decide)
      (by decide)).2.1⟩

/-! ## C3: the openai merge test -/

/-- Counterexample for C3: a finding list containing a dependency finding for
package `openai` and the SDK code finding with `app.py:10` evidence — plus a
second dependency finding whose name lowercases to the same key — yields no
output finding titled `openai - Usage Detected` at all (the later, cased
duplicate wins the map slot and names the merged finding). -/
theorem C3_counterexample :
    depOpenaiLower.category = "dependencies"
    ∧ (depOpenaiLower.dependencyInfo.getD defaultDepInfo).name = "openai"
    ∧ codeSdkOpenai.category = "code"
    ∧ codeSdkOpenai.title = "OpenAI SDK Usage Detected"
    ∧ evApp ∈ codeSdkOpenai.evidence
    ∧ ((mergeDependencyAndCodeFindings
          [depOpenaiLower, depOpenaiCased, codeSdkOpenai]).all
        (fun f => f.title != "openai - Usage Detected")) = true := by
  refine ⟨by decide, by decide, by decide, by decide, by decide, by decide⟩

theorem foldl_lastDepStep_spec (k : String) (l : List Finding)
    (acc : Option Finding) (f : Finding)
    (h : l.foldl (lastDepStep k) acc = some f) :
    acc = some f ∨ (isDepWithInfo f = true ∧ findingDepKey f = k ∧ f ∈ l) := by
  induction l generalizing acc with
  | nil => exact Or.inl h
  | cons g t ih =>
    simp only [List.foldl_cons, lastDepStep] at h
    by_cases hg : (isDepWithInfo g && findingDepKey g == k) = true
    · rw [if_pos hg] at h
      rcases ih _ h with h' | h'
      · right
        rw [Bool.and_eq_true] at hg
        have hfg : g = f := by simpa using h'
        subst hfg
        exact ⟨hg.1, by simpa using hg.2, List.mem_cons_self _ _⟩
      · right
        exact ⟨h'.1, h'.2.1, List.mem_cons_of_mem _ h'.2.2⟩
    · rw [if_neg hg] at h
      rcases ih _ h with h' | h'
      · exact Or.inl h'
      · right
        exact ⟨h'.1, h'.2.1, List.mem_cons_of_mem _ h'.2.2⟩

theorem lastDepFor_spec (fs : List Finding) (k : String) (f : Finding)
    (h : lastDepFor fs k = some f) :
    isDepWithInfo f = true ∧ findingDepKey f = k ∧ f ∈ fs := by
  rcases foldl_lastDepStep_spec k fs none f h with h' | h'
  · exact absurd h' (by simp)
  · exact h'

theorem filter_and_eq {α : Type} (p q : α → Bool) (l : List α) :
    l.filter (fun a => p a && q a) = (l.filter p).filter q := by
  induction l with
  | nil => rfl
  | cons a t ih =>
    by_cases hp : p a = true
    · by_cases hq : q a = true
      · simp [List.filter_cons, hp, hq, ih]
      · simp [List.filter_cons, hp, Bool.eq_false_iff.mpr hq, ih]
    · simp [List.filter_cons, Bool.eq_false_iff.mpr hp, ih]

theorem countP_congr_list {α : Type} (p q : α → Bool) (l : List α)
    (h : ∀ a ∈ l, p a = q a) : l.countP p = l.countP q := by
  induction l with
  | nil => rfl
  | cons a t ih =>
    have ha := h a (List.mem_cons_self _ _)
    have ht := ih (fun b hb => h b (List.mem_cons_of_mem _ hb))
    by_cases hp : p a = true
    · rw [List.countP_cons_of_pos _ _ hp,
        List.countP_cons_of_pos _ _ (ha ▸ hp), ht]
    · have hp' : p a = false := Bool.eq_false_iff.mpr hp
      rw [List.countP_cons_of_neg _ _ (by simp [hp']),
        List.countP_cons_of_neg _ _ (by simp [← ha, hp']), ht]

theorem countP_key_eq_one {β : Type} (m : List (String × β)) (k : String)
    (hnd : (mapKeys m).Nodup) (hk : k ∈ mapKeys m) :
    m.countP (fun p => p.1 == k) = 1 := by
  induction m with
  | nil => simp [mapKeys] at hk
  | cons p t ih =>
    have hnd' : (mapKeys t).Nodup := (List.nodup_cons.mp hnd).2
    have hnotin : p.1 ∉ mapKeys t := (List.nodup_cons.mp hnd).1
    by_cases hp : p.1 = k
    · subst hp
      rw [List.countP_cons_of_pos _ _ (by simp)]
      have hz : t.countP (fun q => q.1 == p.1) = 0 := by
        apply List.countP_eq_zero.mpr
        intro q hq hqk
        exact hnotin (by
          have : q.1 = p.1 := by simpa using hqk
          rw [← this]
          exact List.mem_map_of_mem Prod.fst hq)
      omega
    · rw [List.countP_cons_of_neg _ _ (by simp [hp])]
      have hcons : mapKeys (p :: t) = p.1 :: mapKeys t := rfl
      rw [hcons] at hk
      rcases List.mem_cons.mp hk with h' | h'
      · exact absurd h'.symm hp
      · exact ih hnd' h'

/-- Amended C3: provided the `openai` dependency finding is the last
dependency finding whose name lowercases to `openai` (with nonempty
evidence, per the data-model invariant), the reconciler emits the unified
finding titled `openai - Usage Detected` with at least two evidence
entries; the output has exactly one dependency-category finding for the
`openai` key; and no "compatible"-titled code finding is ever in the
matched bucket merged into it. -/
theorem C3_openai_merge (fs : List Finding) (d c : Finding)
    (di : DependencyInfo) (cfs : List Finding)
    (hdi : d.dependencyInfo = some di) (hname : di.name = "openai")
    (hde : d.evidence ≠ [])
    (hlast : lastDepFor fs "openai" = some d)
    (hc : c ∈ fs) (hcc : c.category = "code")
    (hct : c.title = "OpenAI SDK Usage Detected") (hce : c.evidence ≠ [])
    (hcfs : (jsMapGet (buildCodeMap fs (buildDependencyMap fs))
      "openai").getD [] = cfs) :
    mkMergedFinding d cfs ∈ mergeDependencyAndCodeFindings fs
    ∧ (mkMergedFinding d cfs).title = "openai - Usage Detected"
    ∧ c ∈ cfs
    ∧ 2 ≤ (mkMergedFinding d cfs).evidence.length
    ∧ ((mergeDependencyAndCodeFindings fs).filter
        (fun f => f.category == "dependencies"
          && findingDepKey f == "openai")).length = 1
    ∧ (∀ g, g ∈ cfs → isCompatTitle g = false) := by
  have hspec := lastDepFor_spec fs "openai" d hlast
  have hget : jsMapGet (buildDependencyMap fs) "openai" = some d := by
    rw [buildDependencyMap_get]
    exact hlast
  have hmemdm : ("openai", d) ∈ buildDependencyMap fs :=
    mem_of_jsMapGet_eq_some _ _ _ hget
  have hnd := nodup_keys_buildDependencyMap fs
  have hkeys : "openai" ∈ mapKeys (buildDependencyMap fs) :=
    List.mem_map_of_mem Prod.fst hmemdm
  have hcfs_filter : cfs
      = fs.filter (codeMatchB (buildDependencyMap fs) "openai") := by
    rw [← hcfs, buildCodeMap_get fs _ hnd]
  have hcmatch : codeMatchB (buildDependencyMap fs) "openai" c = true := by
    unfold codeMatchB
    have h1 : (c.category == "code") = true := by simp [hcc]
    have h2 : (c.title != "") = true := by rw [hct]; decide
    have h3 : isCompatTitle c = false := by
      unfold isCompatTitle
      rw [hct]
      decide
    have h4 : jsMapHas (buildDependencyMap fs) "openai" = true :=
      (jsMapHas_iff _ _).mpr hkeys
    have h5 : titleMatchesDep (jsToLower c.title) (jsToLower "openai")
        = true := by
      rw [hct]
      decide
    rw [h1, h2, h3, h4, h5]
    rfl
  have hccfs : c ∈ cfs := by
    rw [hcfs_filter]
    exact List.mem_filter.mpr ⟨hc, hcmatch⟩
  have hne : cfs ≠ [] := List.ne_nil_of_mem hccfs
  refine ⟨?_, ?_, hccfs, ?_, ?_, ?_⟩
  · rw [mergeDependencyAndCodeFindings_eq]
    apply List.mem_append_left
    have hchoice : mergeChoice (buildCodeMap fs (buildDependencyMap fs))
        ("openai", d) = mkMergedFinding d cfs := by
      simp only [mergeChoice]
      rw [hcfs, if_neg (by simp [List.isEmpty_iff, hne])]
    rw [← hchoice]
    exact List.mem_map_of_mem _ hmemdm
  · simp [mkMergedFinding, hdi, hname]
  · have h1 : 1 ≤ d.evidence.length := List.length_pos.mpr hde
    have hmm : c.evidence ∈ cfs.map Finding.evidence :=
      List.mem_map_of_mem _ hccfs
    have h2 : 1 ≤ ((cfs.map Finding.evidence).flatten).length := by
      rw [List.length_flatten]
      refine le_trans (List.length_pos.mpr hce) ?_
      exact List.single_le_sum (fun x _ => Nat.zero_le x) _
        (List.mem_map_of_mem List.length hmm)
    have h3 : (mkMergedFinding d cfs).evidence.length
        = d.evidence.length + ((cfs.map Finding.evidence).flatten).length := by
      simp [mkMergedFinding]
    omega
  · rw [filter_and_eq, output_filter_dep, ← List.countP_eq_length_filter,
      List.countP_map]
    have hcong := countP_congr_list
      ((fun f => findingDepKey f == "openai")
        ∘ mergeChoice (buildCodeMap fs (buildDependencyMap fs)))
      (fun p => p.1 == "openai") (buildDependencyMap fs)
      (by
        intro p hp
        rcases mem_buildDependencyMap fs p hp with ⟨hdep, hkey, _⟩
        have hfld := (mergeChoice_fields
          (buildCodeMap fs (buildDependencyMap fs)) p hdep hkey).2.2.2.2
        simp [Function.comp, hfld])
    rw [hcong]
    exact countP_key_eq_one _ _ hnd hkeys
  · intro g hg
    rw [hcfs_filter] at hg
    have hgm := List.of_mem_filter hg
    unfold codeMatchB at hgm
    simp only [Bool.and_eq_true] at hgm
    simpa using hgm.1.1.2

/-- Witness for C3: the amended statement at the spec's own test list
(openai dependency, SDK code finding at `app.py:10`, compatible-endpoint
finding). -/
theorem C3_openai_merge_witness :
    mkMergedFinding depOpenaiLower [codeSdkOpenai]
      ∈ mergeDependencyAndCodeFindings
          [depOpenaiLower, codeSdkOpenai, codeCompatEndpoint]
    ∧ (mkMergedFinding depOpenaiLower [codeSdkOpenai]).title
        = "openai - Usage Detected" :=
  ⟨(C3_openai_merge [depOpenaiLower, codeSdkOpenai, codeCompatEndpoint]
      depOpenaiLower codeSdkOpenai { name := "openai" } [codeSdkOpenai]
      (by decide) (by decide) (by decide) (by decide) (by decide) (by decide)
      (by decide) (by decide) (by decide)).1,
   (C3_openai_merge [depOpenaiLower, codeSdkOpenai, codeCompatEndpoint]
      depOpenaiLower codeSdkOpenai { name := "openai" } [codeSdkOpenai]
      (by decide) (by decide) (by decide) (by decide) (by decide) (by decide)
      (by decide) (by decide) (by decide)).2.1⟩

/-! ## C5: score invariant and risk-detector weights -/

/-- One documentation extract `{file, text}` produced by the documentation
parser. -/
structure DocExtract where
  file : String
  text : String
deriving DecidableEq

/-- The `parsedDocs` aggregate produced by the documentation parser and
consumed by the risk detector. -/
structure ParsedDocs where
  files : List String := []
  intendedUse : List DocExtract := []
  limitations : List DocExtract := []
  ethicalConsiderations : List DocExtract := []
  biasInformation : List DocExtract := []
  securityNotes : List DocExtract := []
deriving DecidableEq

/-- `calculateScore(findings)` from src/js/analyzer.js: a reduce-sum of the
weights. -/
def calculateScore (findings : List Finding) : Nat :=
  findings.foldl (fun sum finding => sum + finding.weight) 0

/-- The `Limitations Documented` governance finding of the risk detector. -/
def riskLimitationsFinding (parsedDocs : ParsedDocs) : Finding :=
  { id := "risk-limitations-documented", title := "Limitations Documented",
    category := "governance", severity := "info", weight := 0,
    description := "Model limitations are documented in "
      ++ toString parsedDocs.limitations.length ++ " location(s)",
    evidence := (parsedDocs.limitations.take 3).map
      (fun l => { file := l.file, snippet := some (jsTake l.text 200) }),
    riskInfo := some { rtype := "limitations",
                       count := parsedDocs.limitations.length } }

/-- The `Bias/Fairness Documented` governance finding of the risk
detector. -/
def riskBiasFinding (parsedDocs : ParsedDocs) : Finding :=
  { id := "risk-bias-documented", title := "Bias/Fairness Documented",
    category := "governance", severity := "info", weight := 0,
    description := "Bias and fairness considerations documented in "
      ++ toString parsedDocs.biasInformation.length ++ " location(s)",
    evidence := (parsedDocs.biasInformation.take 3).map
      (fun b => { file := b.file, snippet := some (jsTake b.text 200) }),
    riskInfo := some { rtype := "bias-fairness",
                       count := parsedDocs.biasInformation.length } }

/-- The `Ethical Considerations Documented` governance finding of the risk
detector. -/
def riskEthicsFinding (parsedDocs : ParsedDocs) : Finding :=
  { id := "risk-ethics-documented",
    title := "Ethical Considerations Documented", category := "governance",
    severity := "info", weight := 0,
    description := "Ethical considerations documented in "
      ++ toString parsedDocs.ethicalConsiderations.length ++ " location(s)",
    evidence := (parsedDocs.ethicalConsiderations.take 3).map
      (fun e => { file := e.file, snippet := some (jsTake e.text 200) }),
    riskInfo := some { rtype := "ethical",
                       count := parsedDocs.ethicalConsiderations.length } }

/-- The findings pushed by `riskDetector` (src/unnamed/part_003:3010-3068):
only the three positive-indicator governance findings, each with weight
0 (missing documentation is logged, never a finding). -/
def riskDetectorFindings (parsedDocs : ParsedDocs) : List Finding :=
  (if parsedDocs.limitations.length > 0
    then [riskLimitationsFinding parsedDocs] else [])
  ++ (if parsedDocs.biasInformation.length > 0
    then [riskBiasFinding parsedDocs] else [])
  ++ (if parsedDocs.ethicalConsiderations.length > 0
    then [riskEthicsFinding parsedDocs] else [])

theorem calculateScore_eq_sum (fs : List Finding) :
    calculateScore fs = (fs.map Finding.weight).sum := by
  suffices h : ∀ n, fs.foldl (fun sum finding => sum + finding.weight) n
      = n + (fs.map Finding.weight).sum by
    simpa [calculateScore] using h 0
  induction fs with
  | nil => intro n; simp
  | cons f t ih =>
    intro n
    simp only [List.foldl_cons, List.map_cons, List.sum_cons, ih]
    omega

/-- C5: the aggregate confidence score is the sum of the findings' weights,
every governance finding produced by the risk-assessment unit has weight 0,
and appending the risk-assessment findings never changes the score. -/
theorem C5_score_is_weight_sum_and_risk_weight_zero (fs : List Finding)
    (docs : ParsedDocs) :
    calculateScore fs = (fs.map Finding.weight).sum
    ∧ (∀ f, f ∈ riskDetectorFindings docs → f.weight = 0)
    ∧ calculateScore (fs ++ riskDetectorFindings docs) = calculateScore fs := by
  have hall : ∀ f, f ∈ riskDetectorFindings docs → f.weight = 0 := by
    intro f hf
    unfold riskDetectorFindings at hf
    rcases List.mem_append.mp hf with h12 | h3
    · rcases List.mem_append.mp h12 with h1 | h2
      · by_cases hc : docs.limitations.length > 0
        · rw [if_pos hc] at h1
          rw [List.mem_singleton.mp h1]
          rfl
        · rw [if_neg hc] at h1
          simp at h1
      · by_cases hc : docs.biasInformation.length > 0
        · rw [if_pos hc] at h2
          rw [List.mem_singleton.mp h2]
          rfl
        · rw [if_neg hc] at h2
          simp at h2
    · by_cases hc : docs.ethicalConsiderations.length > 0
      · rw [if_pos hc] at h3
        rw [List.mem_singleton.mp h3]
        rfl
      · rw [if_neg hc] at h3
        simp at h3
  refine ⟨calculateScore_eq_sum fs, hall, ?_⟩
  rw [calculateScore_eq_sum, calculateScore_eq_sum, List.map_append,
    List.sum_append]
  have hz : ((riskDetectorFindings docs).map Finding.weight).sum = 0 := by
    apply List.sum_eq_zero
    intro x hx
    rcases List.mem_map.mp hx with ⟨f, hf, rfl⟩
    exact hall f hf
  omega

/-- Documentation extract with a limitations section, for the witness. -/
def docsWithLimitations : ParsedDocs :=
  { files := ["README.md"],
    limitations := [{ file := "README.md", text := "Limited context window" }] }

/-- Witness for C5: the risk finding produced from a documented limitation
has weight 0 and does not change the score of a one-finding list. -/
theorem C5_score_is_weight_sum_and_risk_weight_zero_witness :
    calculateScore ([metaKeywords] ++ riskDetectorFindings docsWithLimitations)
      = calculateScore [metaKeywords]
    ∧ (riskLimitationsFinding docsWithLimitations).weight = 0 :=
  ⟨(C5_score_is_weight_sum_and_risk_weight_zero [metaKeywords]
      docsWithLimitations).2.2,
   (C5_score_is_weight_sum_and_risk_weight_zero [metaKeywords]
      docsWithLimitations).2.1 (riskLimitationsFinding docsWithLimitations)
      (by decide)⟩

/-! ## C8: orchestrator unit isolation (`analyzeRepository`, src/js/analyzer.js) -/

/-- The checkpoint recorded when the code detector pauses (only its
presence matters to the orchestrator loop). -/
structure ResumeState where
  lastSearchIndex : Nat := 0
deriving DecidableEq

/-- The value a detection unit returns: a plain findings array (legacy
shape), an object with a `findings` field and the optional extras the
orchestrator inspects, or a parser result (an object without `findings`,
treated as zero findings by non-parser handling). -/
inductive DetectorReturn where
  | arr (findings : List Finding)
  | obj (findings : List Finding) (aiFilesFound : Option (List String))
      (sbomAvailable : Option Bool) (dependencies : Option (List String))
      (paused : Bool) (resumeState : Option ResumeState)
      (parsedDocsOut : Option ParsedDocs)
  | docs (parsedDocs : ParsedDocs)
deriving DecidableEq

/-- A unit invocation either returns a value or throws (caught by the
orchestrator's try/catch). -/
inductive UnitOutcome where
  | ok (r : DetectorReturn)
  | err
deriving DecidableEq

/-- A detector descriptor (name plus the static capability flags). -/
structure DetectorSpec where
  name : String
  canResume : Bool := false
  isParser : Bool := false
  needsDependencies : Bool := false
  needsAIFiles : Bool := false
  needsAllFindings : Bool := false
  needsParsedDocs : Bool := false
deriving DecidableEq

/-- The fixed detector table of `analyzeRepository`. -/
def analyzerDetectors : List DetectorSpec :=
  [{ name := "Dependencies" },
   { name := "Code", canResume := true, needsDependencies := true },
   { name := "Metadata" },
   { name := "AI Models", needsAIFiles := true },
   { name := "Configuration" },
   { name := "CI/CD" },
   { name := "Model Files" },
   { name := "Prompts" },
   { name := "Hardware", needsAllFindings := true },
   { name := "Infrastructure", needsAllFindings := true },
   { name := "Documentation", isParser := true },
   { name := "Risk Assessment", needsAllFindings := true,
     needsParsedDocs := true }]

/-- The side-channel state threaded through the orchestrator loop. -/
structure OrchestratorState where
  allFindings : List Finding := []
  aiFilesFound : List String := []
  sbomAvailable : Bool := false
  detectedDependencies : List String := []
  parsedDocs : Option ParsedDocs := none
  codeResumeState : Option ResumeState := none
  codeDetectorPaused : Bool := false
deriving DecidableEq

/-- `if (result.aiFilesFound) aiFilesFound = result.aiFilesFound`. -/
def captureAiFiles (st : OrchestratorState) (aiFiles : Option (List String)) :
    OrchestratorState :=
  match aiFiles with
  | some l => { st with aiFilesFound := l }
  | none => st

/-- The SBOM-availability capture, applied only for the Dependencies
detector. -/
def captureSbom (st : OrchestratorState) (isDeps : Bool)
    (sbom : Option Bool) (deps : Option (List String)) : OrchestratorState :=
  if isDeps then
    match sbom with
    | some b =>
      { st with sbomAvailable := b, detectedDependencies := deps.getD [] }
    | none => st
  else st

/-- The parsed-docs capture, applied only for the Risk Assessment
detector. -/
def captureParsedDocs (st : OrchestratorState) (isRisk : Bool)
    (pd : Option ParsedDocs) : OrchestratorState :=
  if isRisk then
    match pd with
    | some d => { st with parsedDocs := some d }
    | none => st
  else st

/-- The pause capture for a resumable detector. -/
def capturePause (st : OrchestratorState) (canResume paused : Bool)
    (resume : Option ResumeState) : OrchestratorState :=
  if paused && canResume then
    { st with codeResumeState := resume, codeDetectorPaused := true }
  else st

/-- One iteration of the orchestrator loop: the unit's outcome is folded
into the state; a thrown error is caught and leaves the state unchanged. -/
def runDetectorStep (st : OrchestratorState)
    (du : DetectorSpec × UnitOutcome) : OrchestratorState :=
  match du.2 with
  | UnitOutcome.err => st
  | UnitOutcome.ok r =>
    if du.1.isParser then
      match r with
      | DetectorReturn.docs d => { st with parsedDocs := some d }
      | _ => st
    else
      match r with
      | DetectorReturn.obj findings aiFiles sbom deps paused resume pd =>
        let st1 := { st with allFindings := st.allFindings ++ findings }
        let st2 := captureAiFiles st1 aiFiles
        let st3 := captureSbom st2 (du.1.name == "Dependencies") sbom deps
        let st4 := captureParsedDocs st3 (du.1.name == "Risk Assessment") pd
        capturePause st4 du.1.canResume paused resume
      | DetectorReturn.arr findings =>
        { st with allFindings := st.allFindings ++ findings }
      | DetectorReturn.docs _ => st

/-- The orchestrator loop over the detector table. -/
def runDetectorLoop (units : List (DetectorSpec × UnitOutcome)) :
    OrchestratorState :=
  units.foldl runDetectorStep {}

/-- The findings the resumed code-detector invocation adds: only when a
pause was recorded, only from an object result, and deduplicated by id
against the accumulated findings. -/
def resumeContribution (st : OrchestratorState)
    (resumeOutcome : UnitOutcome) : List Finding :=
  if st.codeDetectorPaused && st.codeResumeState.isSome then
    match resumeOutcome with
    | UnitOutcome.err => []
    | UnitOutcome.ok (DetectorReturn.obj findings _ _ _ _ _ _) =>
      findings.filter
        (fun f => !((st.allFindings.map Finding.id).contains f.id))
    | UnitOutcome.ok _ => []
  else []

/-- The analysis result returned to the caller. -/
structure AnalyzeResult where
  score : Nat
  findings : List Finding
deriving DecidableEq

/-- `analyzeRepository` over given unit outcomes: run every unit once,
possibly resume the paused one, reconcile, and score. -/
def analyzeRun (units : List (DetectorSpec × UnitOutcome))
    (resumeOutcome : UnitOutcome) : AnalyzeResult :=
  let st := runDetectorLoop units
  let allFindings := st.allFindings ++ resumeContribution st resumeOutcome
  let mergedFindings := mergeDependencyAndCodeFindings allFindings
  { score := calculateScore mergedFindings, findings := mergedFindings }

/-- The findings one unit contributes to the accumulated list. -/
def unitFindings (du : DetectorSpec × UnitOutcome) : List Finding :=
  match du.2 with
  | UnitOutcome.err => []
  | UnitOutcome.ok r =>
    if du.1.isParser then []
    else
      match r with
      | DetectorReturn.arr fs => fs
      | DetectorReturn.obj fs _ _ _ _ _ _ => fs
      | DetectorReturn.docs _ => []

theorem runDetectorStep_allFindings (st : OrchestratorState)
    (du : DetectorSpec × UnitOutcome) :
    (runDetectorStep st du).allFindings = st.allFindings ++ unitFindings du := by
  cases du with
  | mk spec outcome =>
    cases outcome with
    | err => simp [runDetectorStep, unitFindings]
    | ok r =>
      by_cases hp : spec.isParser = true
      · cases r <;> simp [runDetectorStep, unitFindings, hp]
      · have hp' : spec.isParser = false := Bool.eq_false_iff.mpr hp
        cases r with
        | arr fs => simp [runDetectorStep, unitFindings, hp']
        | docs d => simp [runDetectorStep, unitFindings, hp']
        | obj fs aiFiles sbom deps paused resume pd =>
          simp only [runDetectorStep, unitFindings, hp', Bool.false_eq_true,
            if_false]
          have h2 : ∀ s a, (captureAiFiles s a).allFindings = s.allFindings := by
            intro s a; cases a <;> rfl
          have h3 : ∀ s b sb dp, (captureSbom s b sb dp).allFindings
              = s.allFindings := by
            intro s b sb dp
            cases b <;> cases sb <;> rfl
          have h4 : ∀ s b p, (captureParsedDocs s b p).allFindings
              = s.allFindings := by
            intro s b p
            cases b <;> cases p <;> rfl
          have h5 : ∀ s c p rs, (capturePause s c p rs).allFindings
              = s.allFindings := by
            intro s c p rs
            simp only [capturePause]
            by_cases hc : (p && c) = true
            · rw [if_pos hc]
            · rw [if_neg hc]
          rw [h5, h4, h3, h2]

theorem runDetectorLoop_allFindings_aux
    (units : List (DetectorSpec × UnitOutcome)) (st : OrchestratorState) :
    (units.foldl runDetectorStep st).allFindings
      = st.allFindings ++ (units.map unitFindings).flatten := by
  induction units generalizing st with
  | nil => simp
  | cons du t ih =>
    simp only [List.foldl_cons, List.map_cons, List.flatten_cons]
    rw [ih, runDetectorStep_allFindings, List.append_assoc]

/-- C8: every unit-level error is caught and contributes zero findings; the
accumulated findings are exactly the concatenation of the per-unit
contributions in order, independently of which units errored; the resumed
phase only ever adds findings; and replacing any unit's error by an empty
result changes nothing. The run is a total function, so it always returns a
result. -/
theorem C8_unit_errors_are_isolated
    (units : List (DetectorSpec × UnitOutcome)) (resumeOutcome : UnitOutcome) :
    (runDetectorLoop units).allFindings = (units.map unitFindings).flatten
    ∧ (analyzeRun units resumeOutcome).findings
        = mergeDependencyAndCodeFindings
            ((units.map unitFindings).flatten
              ++ resumeContribution (runDetectorLoop units) resumeOutcome)
    ∧ (∀ du, du ∈ units → du.2 = UnitOutcome.err → unitFindings du = [])
    ∧ (∀ pre post spec,
        (runDetectorLoop (pre ++ (spec, UnitOutcome.err) :: post)).allFindings
          = (runDetectorLoop (pre
              ++ (spec, UnitOutcome.ok (DetectorReturn.arr [])) :: post)).allFindings) := by
  have hloop : ∀ us : List (DetectorSpec × UnitOutcome),
      (runDetectorLoop us).allFindings = (us.map unitFindings).flatten := by
    intro us
    unfold runDetectorLoop
    rw [runDetectorLoop_allFindings_aux]
    rfl
  refine ⟨hloop units, ?_, ?_, ?_⟩
  · simp only [analyzeRun]
    rw [hloop units]
  · intro du _ herr
    cases du with
    | mk spec outcome =>
      cases outcome with
      | err => rfl
      | ok r => exact absurd herr (by simp)
  · intro pre post spec
    rw [hloop, hloop, List.map_append, List.map_append, List.map_cons,
      List.map_cons]
    have h : unitFindings (spec, UnitOutcome.err)
        = unitFindings (spec, UnitOutcome.ok (DetectorReturn.arr [])) := by
      simp only [unitFindings]
      by_cases hp : spec.isParser = true <;> simp [hp]
    rw [h]

/-- The Code unit's descriptor. -/
def codeDetectorSpec : DetectorSpec :=
  { name := "Code", canResume := true, needsDependencies := true }

/-- Witness for C8: at a concrete two-unit run in which the Code unit
throws, the thrown unit contributes no findings. -/
theorem C8_unit_errors_are_isolated_witness :
    unitFindings (codeDetectorSpec, UnitOutcome.err) = [] :=
  (C8_unit_errors_are_isolated
    [({ name := "Dependencies" }, UnitOutcome.ok (DetectorReturn.arr [depOpenaiLower])),
     (codeDetectorSpec, UnitOutcome.err)]
    (UnitOutcome.ok (DetectorReturn.arr []))).2.2.1
    (codeDetectorSpec, UnitOutcome.err)
    (by decide) (by decide)

/-! ## C1: code-search pause/resume (`searchCodeViaAPI`, src/unnamed/part_003;
resume re-invocation, src/js/analyzer.js:294-298) -/

/-- A search query with its provider label. -/
structure SearchQuery where
  query : String
  provider : String
deriving DecidableEq

/-- The extension filter used when no repository languages are detected. -/
def defaultCodeExtensions : String :=
  "extension:py extension:js extension:ts extension:jsx extension:tsx extension:java extension:go"

/-- FALLBACK MODE: the fixed broad query list (max 10, the per-minute
quota). -/
def fallbackSearches (codeExtensions : String) : List SearchQuery :=
  [⟨"from openai import " ++ codeExtensions, "OpenAI"⟩,
   ⟨"openai.chat.completions " ++ codeExtensions, "OpenAI"⟩,
   ⟨"from anthropic import " ++ codeExtensions, "Anthropic"⟩,
   ⟨"@anthropic-ai/sdk " ++ codeExtensions, "Anthropic"⟩,
   ⟨"from langchain " ++ codeExtensions, "LangChain"⟩,
   ⟨"ChatOpenAI " ++ codeExtensions, "OpenAI"⟩,
   ⟨"google.generativeai " ++ codeExtensions, "Google"⟩,
   ⟨"api.openai.com " ++ codeExtensions, "OpenAI"⟩,
   ⟨"api.anthropic.com " ++ codeExtensions, "Anthropic"⟩,
   ⟨"/v1/chat/completions " ++ codeExtensions, "OpenAI-compatible"⟩]

/-- SMART MODE: targeted queries generated from the lowercased detected
dependency names, in provider-table order (OpenAI, Anthropic, LangChain,
Google, Cohere, Mistral, HuggingFace), plus the generic endpoint query,
limited to 10. -/
def smartSearches (codeExtensions : String)
    (detectedDependencies : List String) : List SearchQuery :=
  let depNames := detectedDependencies.map jsToLower
  let openaiQ :=
    if depNames.any (fun n => jsIncludes n "openai" && !jsIncludes n "langchain")
    then [⟨"from openai import " ++ codeExtensions, "OpenAI"⟩,
          ⟨"openai.chat.completions " ++ codeExtensions, "OpenAI"⟩,
          ⟨"api.openai.com " ++ codeExtensions, "OpenAI"⟩]
    else []
  let anthropicQ :=
    if depNames.any (fun n => jsIncludes n "anthropic")
    then [⟨"from anthropic import " ++ codeExtensions, "Anthropic"⟩,
          ⟨"@anthropic-ai/sdk " ++ codeExtensions, "Anthropic"⟩,
          ⟨"api.anthropic.com " ++ codeExtensions, "Anthropic"⟩]
    else []
  let langchainQ :=
    if depNames.any (fun n => jsIncludes n "langchain")
    then [⟨"from langchain " ++ codeExtensions, "LangChain"⟩]
      ++ (if depNames.any (fun n => jsIncludes n "langchain-openai"
            || jsIncludes n "langchain_openai")
          then [⟨"ChatOpenAI " ++ codeExtensions, "LangChain-OpenAI"⟩] else [])
      ++ (if depNames.any (fun n => jsIncludes n "langchain-google"
            || jsIncludes n "langchain_google")
          then [⟨"ChatGoogleGenerativeAI " ++ codeExtensions, "LangChain-Google"⟩]
          else [])
      ++ (if depNames.any (fun n => jsIncludes n "langchain-anthropic"
            || jsIncludes n "langchain_anthropic")
          then [⟨"ChatAnthropic " ++ codeExtensions, "LangChain-Anthropic"⟩]
          else [])
    else []
  let googleQ :=
    if depNames.any (fun n => jsIncludes n "google" || jsIncludes n "generativeai"
        || jsIncludes n "gemini")
    then [⟨"google.generativeai " ++ codeExtensions, "Google"⟩,
          ⟨"gemini " ++ codeExtensions, "Google"⟩]
    else []
  let cohereQ :=
    if depNames.any (fun n => jsIncludes n "cohere")
    then [⟨"from cohere import " ++ codeExtensions, "Cohere"⟩] else []
  let mistralQ :=
    if depNames.any (fun n => jsIncludes n "mistral")
    then [⟨"from mistralai import " ++ codeExtensions, "Mistral"⟩] else []
  let hfQ :=
    if depNames.any (fun n => jsIncludes n "transformers"
        || jsIncludes n "diffusers" || jsIncludes n "huggingface")
    then [⟨"from transformers import " ++ codeExtensions, "HuggingFace"⟩,
          ⟨"AutoModel " ++ codeExtensions, "HuggingFace"⟩]
    else []
  let searches := openaiQ ++ anthropicQ ++ langchainQ ++ googleQ ++ cohereQ
    ++ mistralQ ++ hfQ
    ++ [⟨"/v1/chat/completions " ++ codeExtensions, "OpenAI-compatible"⟩]
  if searches.length > 10 then searches.take 10 else searches

/-- The query plan `searchCodeViaAPI` builds for one invocation. -/
def buildSearches (codeExtensions : String) (sbomAvailable : Bool)
    (detectedDependencies : List String) : List SearchQuery :=
  if sbomAvailable && detectedDependencies.length > 0 then
    smartSearches codeExtensions detectedDependencies
  else fallbackSearches codeExtensions

/-- The outcome of one `searchCodeInRepo` call: the distinguished `false`
rate-limit signal, `null` (no results or transient error), a result with
rate-limit headers, or a result without them. -/
inductive SearchResp where
  | rateLimited
  | noResult
  | ok (remaining : Nat) (limit : Nat)
  | okNoRate
deriving DecidableEq

/-- What one `searchCodeViaAPI` invocation did: the queries whose call went
through (in order), whether it paused, and the recorded
`resumeState.lastSearchIndex` (the next unexecuted query). -/
structure SearchRunResult where
  executed : List String
  paused : Bool
  lastSearchIndex : Nat
deriving DecidableEq

/-- The search loop from index `i`: a `false` response pauses with
`lastSearchIndex = i` (the query will be retried); a `remaining = 0` header
pauses with `lastSearchIndex = i + 1` after keeping the result. -/
def searchLoop (oracle : String → SearchResp) :
    List SearchQuery → Nat → List String → SearchRunResult
  | [], i, acc => { executed := acc, paused := false, lastSearchIndex := i }
  | q :: rest, i, acc =>
    match oracle q.query with
    | SearchResp.rateLimited =>
      { executed := acc, paused := true, lastSearchIndex := i }
    | SearchResp.noResult => searchLoop oracle rest (i + 1) (acc ++ [q.query])
    | SearchResp.okNoRate => searchLoop oracle rest (i + 1) (acc ++ [q.query])
    | SearchResp.ok remaining _ =>
      if remaining == 0 then
        { executed := acc ++ [q.query], paused := true,
          lastSearchIndex := i + 1 }
      else searchLoop oracle rest (i + 1) (acc ++ [q.query])

/-- One `searchCodeViaAPI` invocation: build the plan, then execute from
`resumeState?.lastSearchIndex || 0`. -/
def searchCodeViaAPIRun (codeExtensions : String) (sbomAvailable : Bool)
    (detectedDependencies : List String) (startIdx : Nat)
    (oracle : String → SearchResp) : SearchRunResult :=
  let searches := buildSearches codeExtensions sbomAvailable detectedDependencies
  searchLoop oracle (searches.drop startIdx) startIdx []

/-- The orchestrator's behaviour around the code detector: first invocation
with the SBOM context, then — if paused — the single later re-invocation.
The re-invocation (src/js/analyzer.js:294-298) spreads only `detectorInput`
plus `resumeState`, omitting `sbomAvailable` and `detectedDependencies`, so
inside `codeDetector` the JavaScript default parameters `false` and `[]`
apply and the plan is rebuilt in fallback mode. -/
def runCodeDetectorWithResume (codeExtensions : String) (sbomAvailable : Bool)
    (detectedDependencies : List String) (oracle : String → SearchResp) :
    List String :=
  let r1 := searchCodeViaAPIRun codeExtensions sbomAvailable
    detectedDependencies 0 oracle
  if r1.paused then
    let r2 := searchCodeViaAPIRun codeExtensions false [] r1.lastSearchIndex
      oracle
    r1.executed ++ r2.executed
  else r1.executed

/-- The oracle of the failing scenario: the Cohere query hits the
rate-limit signal; every other query succeeds with quota left. -/
def cohereOracle (q : String) : SearchResp :=
  if q = "from cohere import " ++ defaultCodeExtensions then
    SearchResp.rateLimited
  else SearchResp.ok 9 10

/-- C1 (code bug): with an SBOM listing `cohere`, the smart-mode plan has 2
queries; after pausing at query 0 the resumed invocation rebuilds the plan
in fallback mode (the re-invocation drops the SBOM context), so the run
executes the 10 broad queries instead: the planned Cohere query is silently
dropped and 10 never-planned queries run — not "exactly the remaining
queries, each exactly once". -/
theorem C1_smart_mode_resume_divergence :
    buildSearches defaultCodeExtensions true ["cohere"]
      = [⟨"from cohere import " ++ defaultCodeExtensions, "Cohere"⟩,
         ⟨"/v1/chat/completions " ++ defaultCodeExtensions, "OpenAI-compatible"⟩]
    ∧ (searchCodeViaAPIRun defaultCodeExtensions true ["cohere"] 0
        cohereOracle).paused = true
    ∧ runCodeDetectorWithResume defaultCodeExtensions true ["cohere"]
        cohereOracle
      = (fallbackSearches defaultCodeExtensions).map SearchQuery.query
    ∧ ("from cohere import " ++ defaultCodeExtensions)
        ∉ runCodeDetectorWithResume defaultCodeExtensions true ["cohere"]
            cohereOracle
    ∧ ("from anthropic import " ++ defaultCodeExtensions)
        ∈ runCodeDetectorWithResume defaultCodeExtensions true ["cohere"]
            cohereOracle := by
  refine ⟨by decide, by decide, by decide, by decide, by decide⟩

/-! ## BOM synthesis (`createMLModelComponents` and the serializers,
src/js/utils.js)

Fresh `generateShortId` identifiers are modelled by a counter-driven
injective supply (`modelRef n` / `componentRef n`); `lib-<name>` references
are keyed by the library name as in the source. Component fields that no
serializer-shared logic reads back (modelCard, licenses, external
references, the `intended-use` and detection-metadata properties) are
omitted; the `category` field models `properties.find(p => p.name ===
'category')?.value`, the only property the relationship builder reads. -/

/-- A BOM reference: the root repository node, a freshly-numbered model or
generic component node, or a `lib-<name>` library node. -/
inductive BomRef where
  | repoRef
  | modelRef (n : Nat)
  | componentRef (n : Nat)
  | libRef (name : String)
deriving DecidableEq

/-- An identity-resolved BOM component. -/
structure Component where
  ctype : String
  bomRef : BomRef
  name : String
  version : String := ""
  description : String := ""
  purl : Option String := none
  group : Option String := none
  author : Option String := none
  category : Option String := none
  detectionSource : Option String := none
  relatedModels : List RelatedModel := []
deriving DecidableEq

/-- The name-based category fallback of the `category` property chain. -/
def nameCategory (modelName : String) : Option String :=
  if jsIncludes modelName "gpt" then some "text-generation"
  else if jsIncludes modelName "embed" then some "embeddings"
  else none

/-- The `category` property value: explicit `modelType` (when truthy and
not `unknown`), else the HuggingFace `pipeline_tag` (when truthy), else a
name-based guess. -/
def categoryValue (mi : ModelInfo) : Option String :=
  match mi.modelType with
  | some t =>
    if t != "" && t != "unknown" then some t
    else
      match mi.huggingface with
      | some hf =>
        match hf.pipeline_tag with
        | some pt => if pt != "" then some pt else nameCategory mi.modelName
        | none => nameCategory mi.modelName
      | none => nameCategory mi.modelName
  | none =>
    match mi.huggingface with
    | some hf =>
      match hf.pipeline_tag with
      | some pt => if pt != "" then some pt else nameCategory mi.modelName
      | none => nameCategory mi.modelName
    | none => nameCategory mi.modelName

/-- `huggingface.library_name || 'transformers'` (the framework dependency
recorded for a HuggingFace model). -/
def hfLibraryName (mi : ModelInfo) : String :=
  match mi.huggingface with
  | some hf =>
    match hf.library_name with
    | some l => if l != "" then l else "transformers"
    | none => "transformers"
  | none => "transformers"

/-- The model component created at the first occurrence of a
`(provider, modelName)` key. -/
def mkModelComponent (idx : Nat) (f : Finding) (mi : ModelInfo) : Component :=
  let base : Component :=
    { ctype := "machine-learning-model"
      bomRef := BomRef.modelRef idx
      author := some mi.provider
      name := mi.modelName
      version := "latest"
      description := f.description
      category := categoryValue mi
      detectionSource := mi.detectionSource
      relatedModels := mi.relatedModels }
  if mi.provider == "HuggingFace" && mi.huggingface.isSome then
    { base with
      purl := some ("pkg:huggingface/" ++ mi.modelName)
      group := some
        (match mi.huggingface with
         | some hf =>
           match hf.author with
           | some a =>
             if a != "" then a
             else (jsSplitOn '/' mi.modelName).headD mi.modelName
           | none => (jsSplitOn '/' mi.modelName).headD mi.modelName
         | none => (jsSplitOn '/' mi.modelName).headD mi.modelName)
      name := (jsSplitOn '/' mi.modelName).getLastD mi.modelName }
  else if mi.provider == "OpenAI" then
    { base with purl := some ("pkg:ml/openai/" ++ mi.modelName) }
  else if mi.provider == "Anthropic" then
    { base with purl := some ("pkg:ml/anthropic/" ++ mi.modelName) }
  else if mi.provider == "Google" then
    { base with purl := some ("pkg:ml/google/" ++ mi.modelName) }
  else base

/-- The generic library/framework component created for a finding without a
model payload. -/
def mkGenericComponent (idx : Nat) (f : Finding) : Component :=
  { ctype := if f.category == "dependencies" then "library" else "framework"
    bomRef := BomRef.componentRef idx
    name := f.title
    version := "detected"
    description := f.description }

/-- `Set.add`: append if absent (insertion order preserved). -/
def addLibraryDep (libs : List String) (l : String) : List String :=
  if libs.contains l then libs else libs ++ [l]

/-- The accumulator of the component-construction loop. -/
structure BuildAcc where
  generics : List Component := []
  models : List (String × Component) := []
  libraryDeps : List String := []
deriving DecidableEq

/-- One step of the component-construction loop over the selected
findings. -/
def processFinding (acc : BuildAcc) (n : Nat) (f : Finding) : BuildAcc × Nat :=
  match f.modelInfo with
  | some mi =>
    let key := mi.provider ++ "-" ++ mi.modelName
    if jsMapHas acc.models key then (acc, n)
    else
      let comp := mkModelComponent n f mi
      let libs :=
        if mi.provider == "HuggingFace" then
          addLibraryDep acc.libraryDeps (hfLibraryName mi)
        else acc.libraryDeps
      ({ acc with models := acc.models ++ [(key, comp)], libraryDeps := libs },
        n + 1)
  | none =>
    ({ acc with generics := acc.generics ++ [mkGenericComponent n f] }, n + 1)

/-- The controlled vocabulary of inferable ML libraries
(`knownLibraries`). -/
def knownLibraryInfo (lib : String) : Option Component :=
  if lib == "transformers" then
    some { ctype := "library", bomRef := BomRef.libRef lib,
           name := "Transformers", purl := some "pkg:pypi/transformers" }
  else if lib == "pytorch" then
    some { ctype := "library", bomRef := BomRef.libRef lib,
           name := "PyTorch", purl := some "pkg:pypi/torch" }
  else if lib == "tensorflow" then
    some { ctype := "library", bomRef := BomRef.libRef lib,
           name := "TensorFlow", purl := some "pkg:pypi/tensorflow" }
  else if lib == "diffusers" then
    some { ctype := "library", bomRef := BomRef.libRef lib,
           name := "Diffusers", purl := some "pkg:pypi/diffusers" }
  else if lib == "sentence-transformers" then
    some { ctype := "library", bomRef := BomRef.libRef lib,
           name := "Sentence Transformers",
           purl := some "pkg:pypi/sentence-transformers" }
  else none

/-- The description-keyword pass of `createLibraryComponents`: dependency
findings' descriptions add library names to the set. -/
def addDescLibraryDeps (libs : List String) (findings : List Finding) :
    List String :=
  findings.foldl (fun l f =>
    if f.category == "dependencies" then
      let desc := jsToLower f.description
      let l1 := if jsIncludes desc "transformers" then
        addLibraryDep l "transformers" else l
      let l2 := if jsIncludes desc "torch" || jsIncludes desc "pytorch" then
        addLibraryDep l1 "pytorch" else l1
      let l3 := if jsIncludes desc "tensorflow" then
        addLibraryDep l2 "tensorflow" else l2
      let l4 := if jsIncludes desc "diffusers" then
        addLibraryDep l3 "diffusers" else l3
      if jsIncludes desc "sentence-transformers" then
        addLibraryDep l4 "sentence-transformers" else l4
    else l) libs

/-- `createLibraryComponents(libraryDeps, findings)`: enrich the set from
dependency descriptions, then emit one component per known library. -/
def createLibraryComponents (libraryDeps : List String)
    (findings : List Finding) : List Component :=
  (addDescLibraryDeps libraryDeps findings).filterMap knownLibraryInfo

/-- The output of `createMLModelComponents`. -/
structure MLComponentsOut where
  components : List Component
  modelRefs : List Component
  libraryRefs : List Component
deriving DecidableEq

/-- `createMLModelComponents(findings)`: generic components per
non-model finding (input order), deduplicated model components, then the
inferred library components. -/
def createMLModelComponents (findings : List Finding) : MLComponentsOut :=
  let acc := (findings.foldl
    (fun (p : BuildAcc × Nat) f => processFinding p.1 p.2 f) (⟨[], [], []⟩, 0)).1
  let models := acc.models.map Prod.snd
  let libraryComponents := createLibraryComponents acc.libraryDeps findings
  { components := acc.generics ++ models ++ libraryComponents
    modelRefs := models
    libraryRefs := libraryComponents }

/-- The model→library edges of the **JSON** serializer: text-generation and
feature-extraction models depend on transformers and pytorch (when
present); text-to-image models depend on diffusers and pytorch (when
present). -/
def modelLibDepsJson (libraryRefIds : List BomRef) (comp : Component) :
    List BomRef :=
  match comp.category with
  | some cat =>
    if cat == "text-generation" || cat == "feature-extraction" then
      (if libraryRefIds.contains (BomRef.libRef "transformers") then
        [BomRef.libRef "transformers"] else [])
      ++ (if libraryRefIds.contains (BomRef.libRef "pytorch") then
        [BomRef.libRef "pytorch"] else [])
    else if cat == "text-to-image" then
      (if libraryRefIds.contains (BomRef.libRef "diffusers") then
        [BomRef.libRef "diffusers"] else [])
      ++ (if libraryRefIds.contains (BomRef.libRef "pytorch") then
        [BomRef.libRef "pytorch"] else [])
    else []
  | none => []

/-- The model→library edges of the **XML** serializer: same as the JSON
ones except that a text-to-image model gets only the diffusers edge (the
XML emitter has no pytorch case there). -/
def modelLibDepsXml (libraryRefIds : List BomRef) (comp : Component) :
    List BomRef :=
  match comp.category with
  | some cat =>
    if cat == "text-generation" || cat == "feature-extraction" then
      (if libraryRefIds.contains (BomRef.libRef "transformers") then
        [BomRef.libRef "transformers"] else [])
      ++ (if libraryRefIds.contains (BomRef.libRef "pytorch") then
        [BomRef.libRef "pytorch"] else [])
    else if cat == "text-to-image" then
      (if libraryRefIds.contains (BomRef.libRef "diffusers") then
        [BomRef.libRef "diffusers"] else [])
    else []
  | none => []

/-- The component list of the CycloneDX JSON document
(`generateCycloneDXJson`). -/
def cycloneDXJsonComponents (findings : List Finding) : List Component :=
  (createMLModelComponents findings).components

/-- The dependency entries of the CycloneDX JSON document: the root depends
on every component; each model depends on its implied libraries; each
inferred library has an empty entry. -/
def cycloneDXJsonDependencies (findings : List Finding) :
    List (BomRef × List BomRef) :=
  let out := createMLModelComponents findings
  let libraryRefIds := out.libraryRefs.map Component.bomRef
  (BomRef.repoRef, out.components.map Component.bomRef)
    :: out.modelRefs.map (fun m => (m.bomRef, modelLibDepsJson libraryRefIds m))
    ++ out.libraryRefs.map (fun l => (l.bomRef, ([] : List BomRef)))

/-- The component list of the CycloneDX XML document
(`generateCycloneDXXml` recomputes `createMLModelComponents` on the same
findings). -/
def cycloneDXXmlComponents (findings : List Finding) : List Component :=
  (createMLModelComponents findings).components

/-- The dependency entries of the CycloneDX XML document. -/
def cycloneDXXmlDependencies (findings : List Finding) :
    List (BomRef × List BomRef) :=
  let out := createMLModelComponents findings
  let libraryRefIds := out.libraryRefs.map Component.bomRef
  (BomRef.repoRef, out.components.map Component.bomRef)
    :: out.modelRefs.map (fun m => (m.bomRef, modelLibDepsXml libraryRefIds m))
    ++ out.libraryRefs.map (fun l => (l.bomRef, ([] : List BomRef)))

/-- One SPDX element: the repository package, an AI package per model
finding, or a software package per other finding. -/
structure SpdxElement where
  etype : String
  name : String
deriving DecidableEq

/-- The element list of the SPDX JSON-LD document (`generateSPDX`): the
repository element followed by one element per selected finding — no
deduplication by model key and no inferred library elements. -/
def generateSPDXElements (repoName : String) (findings : List Finding) :
    List SpdxElement :=
  { etype := "software_Package", name := repoName }
    :: findings.map (fun f =>
      match f.modelInfo with
      | some mi => { etype := "ai_AIPackage", name := mi.modelName }
      | none => { etype := "software_Package", name := f.title })

/-- The relationship list of the SPDX document: one `dependsOn` edge from
the repository to each per-finding element, and nothing else. -/
def generateSPDXRelationshipCount (findings : List Finding) : Nat :=
  findings.length

/-- The extended AIBOM (`generateExtendedAIBOM`) embeds the CycloneDX JSON
document verbatim as its `standard_bom` section. -/
structure ExtendedAIBOM where
  standardBomComponents : List Component
  standardBomDependencies : List (BomRef × List BomRef)
deriving DecidableEq

/-- `generateExtendedAIBOM(analysisResult, selectedFindings)`: the standard
BOM inside the envelope is `JSON.parse(generateCycloneDXJson(...))`. -/
def generateExtendedAIBOM (findings : List Finding) : ExtendedAIBOM :=
  { standardBomComponents := cycloneDXJsonComponents findings
    standardBomDependencies := cycloneDXJsonDependencies findings }

/-! ## C2: cross-serializer agreement -/

/-- A HuggingFace model finding (registry metadata present, no explicit
framework), which makes the CycloneDX graph infer a Transformers library
component. -/
def hfModelFinding : Finding :=
  { id := "config-model-HuggingFace-org-bert"
    title := "HuggingFace Model in Configuration: org/bert-model"
    category := "config", severity := "medium", weight := 4
    description := "Found HuggingFace model org/bert-model in config"
    evidence := [{ file := "config.yml", line := some 2 }]
    modelInfo := some { provider := "HuggingFace"
                        modelName := "org/bert-model"
                        huggingface := some {} } }

/-- A text-to-image HuggingFace model whose registry metadata names
pytorch as its framework. -/
def t2iModelFinding : Finding :=
  { id := "config-model-HuggingFace-org-sd"
    title := "HuggingFace Model in Configuration: org/sd-model"
    category := "config", severity := "medium", weight := 4
    description := "Found HuggingFace model org/sd-model in config"
    evidence := [{ file := "config.yml", line := some 3 }]
    modelInfo := some { provider := "HuggingFace"
                        modelName := "org/sd-model"
                        modelType := some "text-to-image"
                        huggingface := some { library_name := some "pytorch" } } }

/-- Counterexample for C2: for one HuggingFace model finding the CycloneDX
serializers emit two components (the model plus the inferred Transformers
library) while the SPDX serializer emits a single non-root package and no
library element; and for a text-to-image model with pytorch present, the
JSON and XML serializers disagree on the model→library edges. -/
theorem C2_counterexample :
    (cycloneDXJsonComponents [hfModelFinding]).length = 2
    ∧ ((cycloneDXJsonComponents [hfModelFinding]).map
        Component.name).contains "Transformers" = true
    ∧ (generateSPDXElements "aibommaker" [hfModelFinding]).length = 2
    ∧ ((generateSPDXElements "aibommaker" [hfModelFinding]).map
        SpdxElement.name).contains "Transformers" = false
    ∧ cycloneDXJsonDependencies [t2iModelFinding]
        ≠ cycloneDXXmlDependencies [t2iModelFinding] := by
  refine ⟨by decide, by decide, by decide, by decide, by decide⟩

/-- Amended C2: the CycloneDX JSON and XML serializers and the extended
AIBOM (which embeds the CycloneDX JSON document) share the component set
and the root relationship entry, because all of them are built from the one
`createMLModelComponents` graph; the SPDX serializer is not equivalent. -/
theorem C2_cdx_family_agreement (findings : List Finding) :
    cycloneDXXmlComponents findings = cycloneDXJsonComponents findings
    ∧ (generateExtendedAIBOM findings).standardBomComponents
        = cycloneDXJsonComponents findings
    ∧ (generateExtendedAIBOM findings).standardBomDependencies
        = cycloneDXJsonDependencies findings
    ∧ (cycloneDXXmlDependencies findings).head?
        = (cycloneDXJsonDependencies findings).head? :=
  ⟨rfl, rfl, rfl, rfl⟩

/-! ## C7: well-formedness of the CycloneDX dependency graph -/

theorem knownLibraryInfo_spec (s : String) (c : Component)
    (h : knownLibraryInfo s = some c) :
    c.bomRef = BomRef.libRef s ∧ c.ctype = "library" := by
  unfold knownLibraryInfo at h
  split_ifs at h <;>
    (injection h with h
     subst h
     exact ⟨rfl, rfl⟩)

theorem addLibraryDep_nodup (libs : List String) (l : String)
    (h : libs.Nodup) : (addLibraryDep libs l).Nodup := by
  unfold addLibraryDep
  by_cases hc : libs.contains l = true
  · rwa [if_pos hc]
  · rw [if_neg hc]
    rw [List.nodup_append]
    refine ⟨h, List.nodup_singleton l, ?_⟩
    intro a ha hb
    rw [List.mem_singleton.mp hb] at ha
    exact hc (List.elem_eq_true_of_mem ha)

theorem condAdd_nodup (c : Prop) [Decidable c] (l : List String) (s : String)
    (h : l.Nodup) : (if c then addLibraryDep l s else l).Nodup := by
  by_cases hc : c
  · rw [if_pos hc]
    exact addLibraryDep_nodup _ _ h
  · rwa [if_neg hc]

theorem addDescLibraryDeps_nodup (findings : List Finding)
    (libs : List String) (h : libs.Nodup) :
    (addDescLibraryDeps libs findings).Nodup := by
  induction findings generalizing libs with
  | nil => exact h
  | cons f t ih =>
    unfold addDescLibraryDeps
    simp only [List.foldl_cons]
    have hstep : ∀ l : List String, l.Nodup → ∀ g : Finding,
        ((fun (l : List String) (f : Finding) =>
          if f.category == "dependencies" then
            let desc := jsToLower f.description
            let l1 := if jsIncludes desc "transformers" then
              addLibraryDep l "transformers" else l
            let l2 := if jsIncludes desc "torch" || jsIncludes desc "pytorch"
              then addLibraryDep l1 "pytorch" else l1
            let l3 := if jsIncludes desc "tensorflow" then
              addLibraryDep l2 "tensorflow" else l2
            let l4 := if jsIncludes desc "diffusers" then
              addLibraryDep l3 "diffusers" else l3
            if jsIncludes desc "sentence-transformers" then
              addLibraryDep l4 "sentence-transformers" else l4
          else l) l g).Nodup := by
      intro l hl g
      by_cases hc : (g.category == "dependencies") = true
      · simp only [hc, if_true]
        exact condAdd_nodup _ _ _ (condAdd_nodup _ _ _ (condAdd_nodup _ _ _
          (condAdd_nodup _ _ _ (condAdd_nodup _ _ _ hl))))
      · simp only [hc, Bool.false_eq_true, if_false]
        exact hl
    have ht := ih _ (hstep libs h f)
    unfold addDescLibraryDeps at ht
    exact ht

theorem filterMap_known_refs_nodup (l : List String) (hnd : l.Nodup) :
    ((l.filterMap knownLibraryInfo).map Component.bomRef).Nodup := by
  induction l with
  | nil => simp
  | cons s t ih =>
    have hnd' : t.Nodup := (List.nodup_cons.mp hnd).2
    have hnotin : s ∉ t := (List.nodup_cons.mp hnd).1
    cases hks : knownLibraryInfo s with
    | none => simpa [List.filterMap_cons, hks] using ih hnd'
    | some c =>
      simp only [List.filterMap_cons, hks, List.map_cons, List.nodup_cons]
      refine ⟨?_, ih hnd'⟩
      intro hmem
      rcases List.mem_map.mp hmem with ⟨c', hc', heq⟩
      rcases List.mem_filterMap.mp hc' with ⟨s', hs', hks'⟩
      have h1 := (knownLibraryInfo_spec s c hks).1
      have h2 := (knownLibraryInfo_spec s' c' hks').1
      rw [h1, h2] at heq
      injection heq with heq
      exact hnotin (heq ▸ hs')

theorem mem_createLibraryComponents (libs : List String)
    (findings : List Finding) (c : Component)
    (h : c ∈ createLibraryComponents libs findings) :
    (∃ s, c.bomRef = BomRef.libRef s) ∧ c.ctype = "library" := by
  rcases List.mem_filterMap.mp h with ⟨s, _, hks⟩
  have hs := knownLibraryInfo_spec s c hks
  exact ⟨⟨s, hs.1⟩, hs.2⟩

theorem mkModelComponent_bomRef (idx : Nat) (f : Finding) (mi : ModelInfo) :
    (mkModelComponent idx f mi).bomRef = BomRef.modelRef idx := by
  unfold mkModelComponent
  split_ifs <;> rfl

theorem mkModelComponent_ctype (idx : Nat) (f : Finding) (mi : ModelInfo) :
    (mkModelComponent idx f mi).ctype = "machine-learning-model" := by
  unfold mkModelComponent
  split_ifs <;> rfl

/-- The freshness invariant threaded through the component-construction
fold: generic refs are distinct `componentRef` indexes below the counter,
model refs distinct `modelRef` indexes below the counter, model components
carry the machine-learning type, and the library-dependency set is
duplicate-free. -/
def accInv (acc : BuildAcc) (n : Nat) : Prop :=
  (acc.generics.map Component.bomRef).Nodup
  ∧ (acc.models.map (fun q => q.2.bomRef)).Nodup
  ∧ (∀ c ∈ acc.generics, ∃ i, i < n ∧ c.bomRef = BomRef.componentRef i)
  ∧ (∀ q ∈ acc.models, (∃ i, i < n ∧ q.2.bomRef = BomRef.modelRef i)
      ∧ q.2.ctype = "machine-learning-model")
  ∧ acc.libraryDeps.Nodup

theorem processFinding_inv (acc : BuildAcc) (n : Nat) (f : Finding)
    (h : accInv acc n) :
    accInv (processFinding acc n f).1 (processFinding acc n f).2 := by
  obtain ⟨hg, hm, hgb, hmb, hl⟩ := h
  cases hfi : f.modelInfo with
  | none =>
    simp only [processFinding, hfi]
    refine ⟨?_, hm, ?_, ?_, hl⟩
    · rw [List.map_append, List.nodup_append]
      refine ⟨hg, by simp, ?_⟩
      intro r hr hr'
      rcases List.mem_map.mp hr with ⟨c, hc, rfl⟩
      rcases hgb c hc with ⟨i, hi, hci⟩
      simp only [List.map_cons, List.map_nil, List.mem_singleton] at hr'
      rw [hci] at hr'
      simp only [mkGenericComponent] at hr'
      injection hr' with hr'
      omega
    · intro c hc
      rcases List.mem_append.mp hc with hc | hc
      · rcases hgb c hc with ⟨i, hi, hci⟩
        exact ⟨i, by omega, hci⟩
      · rw [List.mem_singleton.mp hc]
        exact ⟨n, by omega, rfl⟩
    · intro q hq
      rcases hmb q hq with ⟨⟨i, hi, hqi⟩, hqc⟩
      exact ⟨⟨i, by omega, hqi⟩, hqc⟩
  | some mi =>
    by_cases hhas : jsMapHas acc.models (mi.provider ++ "-" ++ mi.modelName)
      = true
    · simp only [processFinding, hfi, hhas, if_true]
      exact ⟨hg, hm, hgb, hmb, hl⟩
    · simp only [processFinding, hfi, hhas, Bool.false_eq_true, if_false]
      refine ⟨hg, ?_, ?_, ?_, ?_⟩
      · rw [List.map_append, List.nodup_append]
        refine ⟨hm, by simp, ?_⟩
        intro r hr hr'
        rcases List.mem_map.mp hr with ⟨q, hq, rfl⟩
        rcases (hmb q hq).1 with ⟨i, hi, hqi⟩
        simp only [List.map_cons, List.map_nil, List.mem_singleton] at hr'
        rw [hqi, mkModelComponent_bomRef] at hr'
        injection hr' with hr'
        omega
      · intro c hc
        rcases hgb c hc with ⟨i, hi, hci⟩
        exact ⟨i, by omega, hci⟩
      · intro q hq
        rcases List.mem_append.mp hq with hq | hq
        · rcases hmb q hq with ⟨⟨i, hi, hqi⟩, hqc⟩
          exact ⟨⟨i, by omega, hqi⟩, hqc⟩
        · rw [List.mem_singleton.mp hq]
          exact ⟨⟨n, by omega, mkModelComponent_bomRef n f mi⟩,
            mkModelComponent_ctype n f mi⟩
      · by_cases hp : (mi.provider == "HuggingFace") = true
        · simp only [hp, if_true]
          exact addLibraryDep_nodup _ _ hl
        · simp only [hp, Bool.false_eq_true, if_false]
          exact hl

theorem processFinding_counter (acc : BuildAcc) (n : Nat) (f : Finding) :
    n ≤ (processFinding acc n f).2 := by
  cases hfi : f.modelInfo with
  | none => simp [processFinding, hfi]
  | some mi =>
    by_cases hhas : jsMapHas acc.models (mi.provider ++ "-" ++ mi.modelName)
      = true
    · simp [processFinding, hfi, hhas]
    · simp [processFinding, hfi, hhas]

theorem buildFold_inv (findings : List Finding) (acc : BuildAcc) (n : Nat)
    (h : accInv acc n) :
    accInv (findings.foldl
      (fun (p : BuildAcc × Nat) f => processFinding p.1 p.2 f) (acc, n)).1
      (findings.foldl
        (fun (p : BuildAcc × Nat) f => processFinding p.1 p.2 f) (acc, n)).2 := by
  induction findings generalizing acc n with
  | nil => exact h
  | cons f t ih =>
    simp only [List.foldl_cons]
    have hstep := processFinding_inv acc n f h
    have heta : processFinding acc n f
        = ((processFinding acc n f).1, (processFinding acc n f).2) := rfl
    rw [heta]
    exact ih _ _ hstep

theorem disjoint_of_shapes {P Q : BomRef → Prop} (l1 l2 : List BomRef)
    (h1 : ∀ r ∈ l1, P r) (h2 : ∀ r ∈ l2, Q r)
    (h : ∀ r, P r → Q r → False) : l1.Disjoint l2 := by
  intro a ha hb
  exact h a (h1 a ha) (h2 a hb)

theorem createMLModelComponents_facts (findings : List Finding) :
    (((createMLModelComponents findings).components.map Component.bomRef).Nodup)
    ∧ (∀ c ∈ (createMLModelComponents findings).components,
        (∃ i, c.bomRef = BomRef.componentRef i)
          ∨ (∃ i, c.bomRef = BomRef.modelRef i)
          ∨ (∃ s, c.bomRef = BomRef.libRef s))
    ∧ (∀ m ∈ (createMLModelComponents findings).modelRefs,
        ∃ i, m.bomRef = BomRef.modelRef i)
    ∧ (∀ c ∈ (createMLModelComponents findings).components,
        c.ctype = "library" →
        (∃ i, c.bomRef = BomRef.componentRef i)
          ∨ (∃ s, c.bomRef = BomRef.libRef s)) := by
  have hinv := buildFold_inv findings ⟨[], [], []⟩ 0
    (by refine ⟨by simp, by simp, ?_, ?_, by simp⟩ <;> intro x hx <;> simp at hx)
  obtain ⟨hg, hm, hgb, hmb, hl⟩ := hinv
  set acc := (findings.foldl
    (fun (p : BuildAcc × Nat) f => processFinding p.1 p.2 f) (⟨[], [], []⟩, 0)).1
    with hacc
  have hlibshape : ∀ c ∈ createLibraryComponents acc.libraryDeps findings,
      (∃ s, c.bomRef = BomRef.libRef s) ∧ c.ctype = "library" :=
    fun c hc => mem_createLibraryComponents _ _ c hc
  have hlibnodup : ((createLibraryComponents acc.libraryDeps findings).map
      Component.bomRef).Nodup :=
    filterMap_known_refs_nodup _ (addDescLibraryDeps_nodup findings _ hl)
  have hcomps : (createMLModelComponents findings).components
      = acc.generics ++ acc.models.map Prod.snd
        ++ createLibraryComponents acc.libraryDeps findings := rfl
  have hmodels : (createMLModelComponents findings).modelRefs
      = acc.models.map Prod.snd := rfl
  have hgshape : ∀ r ∈ acc.generics.map Component.bomRef,
      ∃ i, r = BomRef.componentRef i := by
    intro r hr
    rcases List.mem_map.mp hr with ⟨c, hc, rfl⟩
    rcases hgb c hc with ⟨i, _, hci⟩
    exact ⟨i, hci⟩
  have hmshape : ∀ r ∈ (acc.models.map Prod.snd).map Component.bomRef,
      ∃ i, r = BomRef.modelRef i := by
    intro r hr
    rcases List.mem_map.mp hr with ⟨c, hc, rfl⟩
    rcases List.mem_map.mp hc with ⟨q, hq, rfl⟩
    rcases (hmb q hq).1 with ⟨i, _, hqi⟩
    exact ⟨i, hqi⟩
  have hlshape : ∀ r ∈ (createLibraryComponents acc.libraryDeps
      findings).map Component.bomRef, ∃ s, r = BomRef.libRef s := by
    intro r hr
    rcases List.mem_map.mp hr with ⟨c, hc, rfl⟩
    exact (hlibshape c hc).1
  have hmnodup : ((acc.models.map Prod.snd).map Component.bomRef).Nodup := by
    rw [List.map_map]
    exact hm
  refine ⟨?_, ?_, ?_, ?_⟩
  · rw [hcomps, List.map_append, List.map_append, List.nodup_append,
      List.nodup_append]
    refine ⟨⟨hg, hmnodup, ?_⟩, hlibnodup, ?_⟩
    · exact disjoint_of_shapes _ _ hgshape hmshape
        (by rintro r ⟨i, rfl⟩ ⟨j, hj⟩; exact BomRef.noConfusion hj)
    · exact disjoint_of_shapes
        (P := fun r => (∃ i, r = BomRef.componentRef i)
          ∨ ∃ i, r = BomRef.modelRef i)
        (Q := fun r => ∃ s, r = BomRef.libRef s) _ _
        (fun r hr => (List.mem_append.mp hr).elim
          (fun h' => Or.inl (hgshape r h'))
          (fun h' => Or.inr (hmshape r h')))
        hlshape
        (by rintro r (⟨i, rfl⟩ | ⟨i, rfl⟩) ⟨s, hs⟩ <;>
          exact BomRef.noConfusion hs)
  · intro c hc
    rw [hcomps] at hc
    rcases List.mem_append.mp hc with hc | hc
    · rcases List.mem_append.mp hc with hc | hc
      · rcases hgb c hc with ⟨i, _, hci⟩
        exact Or.inl ⟨i, hci⟩
      · rcases List.mem_map.mp hc with ⟨q, hq, rfl⟩
        rcases (hmb q hq).1 with ⟨i, _, hqi⟩
        exact Or.inr (Or.inl ⟨i, hqi⟩)
    · exact Or.inr (Or.inr (hlibshape c hc).1)
  · intro m hm'
    rw [hmodels] at hm'
    rcases List.mem_map.mp hm' with ⟨q, hq, rfl⟩
    rcases (hmb q hq).1 with ⟨i, _, hqi⟩
    exact ⟨i, hqi⟩
  · intro c hc hlib
    rw [hcomps] at hc
    rcases List.mem_append.mp hc with hc | hc
    · rcases List.mem_append.mp hc with hc | hc
      · rcases hgb c hc with ⟨i, _, hci⟩
        exact Or.inl ⟨i, hci⟩
      · rcases List.mem_map.mp hc with ⟨q, hq, rfl⟩
        have := (hmb q hq).2
        rw [hlib] at this
        exact absurd this (by decide)
    · exact Or.inr (hlibshape c hc).1

/-- The edge relation of a BOM dependency section: `a` depends on `b`. -/
def bomEdge (deps : List (BomRef × List BomRef)) (a b : BomRef) : Prop :=
  ∃ ds, (a, ds) ∈ deps ∧ b ∈ ds

theorem modelLibDepsJson_shape (ids : List BomRef) (c : Component)
    (b : BomRef) (h : b ∈ modelLibDepsJson ids c) :
    ∃ s, b = BomRef.libRef s := by
  unfold modelLibDepsJson at h
  cases hcat : c.category with
  | none => rw [hcat] at h; simp at h
  | some cat =>
    rw [hcat] at h
    dsimp only at h
    by_cases h1 : (cat == "text-generation" || cat == "feature-extraction")
        = true
    · rw [if_pos h1] at h
      rcases List.mem_append.mp h with h2 | h2
      · by_cases h3 : ids.contains (BomRef.libRef "transformers") = true
        · rw [if_pos h3] at h2
          exact ⟨_, List.mem_singleton.mp h2⟩
        · rw [if_neg h3] at h2
          simp at h2
      · by_cases h3 : ids.contains (BomRef.libRef "pytorch") = true
        · rw [if_pos h3] at h2
          exact ⟨_, List.mem_singleton.mp h2⟩
        · rw [if_neg h3] at h2
          simp at h2
    · rw [if_neg h1] at h
      by_cases h2 : (cat == "text-to-image") = true
      · rw [if_pos h2] at h
        rcases List.mem_append.mp h with h3 | h3
        · by_cases h4 : ids.contains (BomRef.libRef "diffusers") = true
          · rw [if_pos h4] at h3
            exact ⟨_, List.mem_singleton.mp h3⟩
          · rw [if_neg h4] at h3
            simp at h3
        · by_cases h4 : ids.contains (BomRef.libRef "pytorch") = true
          · rw [if_pos h4] at h3
            exact ⟨_, List.mem_singleton.mp h3⟩
          · rw [if_neg h4] at h3
            simp at h3
      · rw [if_neg h2] at h
        simp at h

theorem jsonDeps_edge_cases (findings : List Finding) (a b : BomRef)
    (h : bomEdge (cycloneDXJsonDependencies findings) a b) :
    (a = BomRef.repoRef
      ∧ b ∈ (createMLModelComponents findings).components.map Component.bomRef)
    ∨ (∃ m, m ∈ (createMLModelComponents findings).modelRefs
        ∧ a = m.bomRef ∧ ∃ s, b = BomRef.libRef s) := by
  obtain ⟨ds, hmem, hb⟩ := h
  simp only [cycloneDXJsonDependencies] at hmem
  rcases List.mem_cons.mp hmem with h1 | h1
  · rw [Prod.mk.injEq] at h1
    left
    refine ⟨h1.1, ?_⟩
    rw [h1.2] at hb
    exact hb
  · rcases List.mem_append.mp h1 with h2 | h2
    · rcases List.mem_map.mp h2 with ⟨m, hm, heq⟩
      rw [Prod.mk.injEq] at heq
      right
      refine ⟨m, hm, heq.1.symm, ?_⟩
      rw [← heq.2] at hb
      exact modelLibDepsJson_shape _ m b hb
    · rcases List.mem_map.mp h2 with ⟨l, _, heq⟩
      rw [Prod.mk.injEq] at heq
      rw [← heq.2] at hb
      exact absurd hb (by simp)

/-- The strict stratification of the BOM graph: root below models and
generic components, which sit below libraries. -/
def bomRank : BomRef → Nat
  | BomRef.repoRef => 0
  | BomRef.modelRef _ => 1
  | BomRef.componentRef _ => 1
  | BomRef.libRef _ => 2

theorem jsonDeps_edge_rank (findings : List Finding) (a b : BomRef)
    (h : bomEdge (cycloneDXJsonDependencies findings) a b) :
    bomRank a < bomRank b := by
  rcases jsonDeps_edge_cases findings a b h with ⟨rfl, hb⟩ | ⟨m, hm, rfl, s, rfl⟩
  · rcases List.mem_map.mp hb with ⟨c, hc, rfl⟩
    rcases (createMLModelComponents_facts findings).2.1 c hc with
      ⟨i, hci⟩ | ⟨i, hci⟩ | ⟨s, hci⟩ <;> rw [hci] <;> simp [bomRank]
  · rcases (createMLModelComponents_facts findings).2.2.1 m hm with ⟨i, hmi⟩
    rw [hmi]
    simp [bomRank]

/-- C7: the CycloneDX dependency graph is acyclic; every component has
exactly one incoming edge from the root (the root's single dependency entry
lists each component reference exactly once, and such an edge exists); and
no library-typed component has an outgoing edge. -/
theorem C7_bom_graph_wellformed (findings : List Finding) :
    (∀ a, ¬ Relation.TransGen (bomEdge (cycloneDXJsonDependencies findings)) a a)
    ∧ (∀ c, c ∈ (createMLModelComponents findings).components →
        ((createMLModelComponents findings).components.map
            Component.bomRef).count c.bomRef = 1
          ∧ bomEdge (cycloneDXJsonDependencies findings) BomRef.repoRef
              c.bomRef)
    ∧ (∀ ds, (BomRef.repoRef, ds) ∈ cycloneDXJsonDependencies findings →
        ds = (createMLModelComponents findings).components.map
          Component.bomRef)
    ∧ (∀ c, c ∈ (createMLModelComponents findings).components →
        c.ctype = "library" →
        ∀ b, ¬ bomEdge (cycloneDXJsonDependencies findings) c.bomRef b) := by
  refine ⟨?_, ?_, ?_, ?_⟩
  · intro a hcycle
    have hmono : ∀ x y,
        Relation.TransGen (bomEdge (cycloneDXJsonDependencies findings)) x y →
        bomRank x < bomRank y := by
      intro x y hxy
      induction hxy with
      | single h => exact jsonDeps_edge_rank findings _ _ h
      | tail _ h ih => exact lt_trans ih (jsonDeps_edge_rank findings _ _ h)
    exact absurd (hmono a a hcycle) (lt_irrefl _)
  · intro c hc
    constructor
    · exact List.count_eq_one_of_mem (createMLModelComponents_facts findings).1
        (List.mem_map_of_mem Component.bomRef hc)
    · refine ⟨(createMLModelComponents findings).components.map
        Component.bomRef, ?_, List.mem_map_of_mem Component.bomRef hc⟩
      simp only [cycloneDXJsonDependencies]
      exact List.mem_cons_self _ _
  · intro ds hds
    simp only [cycloneDXJsonDependencies] at hds
    rcases List.mem_cons.mp hds with h1 | h1
    · rw [Prod.mk.injEq] at h1
      exact h1.2
    · exfalso
      rcases List.mem_append.mp h1 with h2 | h2
      · rcases List.mem_map.mp h2 with ⟨m, hm, heq⟩
        rw [Prod.mk.injEq] at heq
        rcases (createMLModelComponents_facts findings).2.2.1 m hm with ⟨i, hmi⟩
        rw [hmi] at heq
        exact BomRef.noConfusion heq.1
      · rcases List.mem_map.mp h2 with ⟨l, hl, heq⟩
        rw [Prod.mk.injEq] at heq
        rcases (mem_createLibraryComponents _ _ l hl).1 with ⟨s, hs⟩
        rw [hs] at heq
        exact BomRef.noConfusion heq.1
  · intro c hc hlib b hedge
    rcases jsonDeps_edge_cases findings _ _ hedge with ⟨heq, _⟩ |
      ⟨m, hm, heq, _⟩
    · rcases (createMLModelComponents_facts findings).2.2.2 c hc hlib with
        ⟨i, hci⟩ | ⟨s, hci⟩ <;> rw [hci] at heq <;> exact BomRef.noConfusion heq
    · rcases (createMLModelComponents_facts findings).2.2.1 m hm with ⟨i, hmi⟩
      rcases (createMLModelComponents_facts findings).2.2.2 c hc hlib with
        ⟨j, hcj⟩ | ⟨s, hcj⟩ <;>
        (rw [hcj, hmi] at heq
         exact BomRef.noConfusion heq)

/-- The Transformers library component inferred for `hfModelFinding`. -/
def transformersComponentW : Component :=
  { ctype := "library", bomRef := BomRef.libRef "transformers",
    name := "Transformers", purl := some "pkg:pypi/transformers" }

/-- Witness for C7: at a concrete one-model BOM, there is no cycle through
the root, the inferred library component has exactly one incoming root
edge, and it has no outgoing edge. -/
theorem C7_bom_graph_wellformed_witness :
    ¬ Relation.TransGen (bomEdge (cycloneDXJsonDependencies [hfModelFinding]))
        BomRef.repoRef BomRef.repoRef
    ∧ ((createMLModelComponents [hfModelFinding]).components.map
        Component.bomRef).count transformersComponentW.bomRef = 1
    ∧ ¬ bomEdge (cycloneDXJsonDependencies [hfModelFinding])
        transformersComponentW.bomRef BomRef.repoRef :=
  ⟨(C7_bom_graph_wellformed [hfModelFinding]).1 BomRef.repoRef,
   ((C7_bom_graph_wellformed [hfModelFinding]).2.1 transformersComponentW
      (by decide)).1,
   (C7_bom_graph_wellformed [hfModelFinding]).2.2.2 transformersComponentW
      (by decide) (by decide) BomRef.repoRef⟩
